import Mathlib

/-!
Verification of the `ormc` extractor/resolver/emitter pipeline of the
`tinywasm/orm` repository, shallowly embedded in Lean 4.

The embedding follows `ormc.go` (parser + emitter + orchestrator) and the
relation resolver file (`ResolveRelations` / `findFKField`).  Go slices become
`List`, the Go `map[string]StructInfo` becomes an association list,
`os.WriteFile` becomes an explicit file-system state `String → Option String`,
and the injectable log sink becomes an explicit list of emitted messages.
String helpers from the external `tinywasm/fmt` dependency (`Split`,
`TrimPrefix`, `TrimSuffix`, `HasPrefix`, `SnakeLow`, `IDorPrimaryKey`) are
modelled structurally; the `IDorPrimaryKey` naming heuristic lives outside this
repository, so it is carried as an abstract parameter of the `Ormc` handler.
-/

namespace Orm

/-! ## String helpers (model of the external `tinywasm/fmt` operations) -/

/-- Model of `strings.Split` with a single-character separator
(the code only ever splits on `" "`, `","` and `":"`). -/
def splitCharAux (c : Char) : List Char → List Char → List (List Char)
  | [], acc => [acc.reverse]
  | x :: xs, acc =>
    if x = c then acc.reverse :: splitCharAux c xs []
    else splitCharAux c xs (x :: acc)

/-- `splitChar c s` splits `s` at every occurrence of `c`
(empty segments preserved, as in Go's `strings.Split`). -/
def splitChar (c : Char) (s : String) : List String :=
  (splitCharAux c s.data []).map (fun l => ⟨l⟩)

/-- Model of `fmt.HasPrefix` / `Convert(..).TrimPrefix` prefix test. -/
def hasPre (s pre : String) : Bool :=
  pre.data.isPrefixOf s.data

/-- Model of `TrimPrefix`: drop `pre` from the front of `s` if present. -/
def dropPre (s pre : String) : String :=
  if pre.data.isPrefixOf s.data then ⟨s.data.drop pre.data.length⟩ else s

/-- Model of `TrimSuffix`: drop `suf` from the end of `s` if present. -/
def dropSuf (s suf : String) : String :=
  if suf.data.isSuffixOf s.data then ⟨s.data.take (s.data.length - suf.data.length)⟩ else s

/-- Helper for `snakeLow`: `first` is true at the very first character,
`prevUpper` when the previous character was upper-case (so acronym runs such
as `ID` stay contiguous: `UserID ↦ user_id`). -/
def snakeLowAux : List Char → Bool → Bool → List Char
  | [], _, _ => []
  | ch :: cs, first, prevUpper =>
    if ch.isUpper then
      (if first || prevUpper then [ch.toLower] else ['_', ch.toLower])
        ++ snakeLowAux cs false true
    else ch :: snakeLowAux cs false false

/-- Model of `fmt.Convert(..).SnakeLow()`: lower-snake-case conversion. -/
def snakeLow (s : String) : String :=
  ⟨snakeLowAux s.data true false⟩

/-- Model of `ast.IsExported`: the first character is upper-case. -/
def isExported (s : String) : Bool :=
  match s.data with
  | [] => false
  | ch :: _ => ch.isUpper

/-- Model of `Convert(..).Join(sep)` (Go `strings.Join`). -/
def joinSep (sep : String) : List String → String
  | [] => ""
  | [x] => x
  | x :: y :: xs => x ++ sep ++ joinSep sep (y :: xs)

/-! ## Core data model (`ormc.go`, `model.go`) -/

/-- `FieldType` — the abstract storage type of a model field. -/
inductive FieldType where
  | TypeText
  | TypeInt64
  | TypeFloat64
  | TypeBool
  | TypeBlob
deriving DecidableEq, Repr, Inhabited

/-- Constraint bitmask values (`Constraint` is an int bitmask in the source). -/
def ConstraintNone : Nat := 0

def ConstraintPK : Nat := 1

def ConstraintUnique : Nat := 2

def ConstraintNotNull : Nat := 4

def ConstraintAutoIncrement : Nat := 8

/-- `FieldInfo` — one mapped field of a parsed struct.
(The Go field `Type` is rendered `Typ` because `Type` is reserved in Lean.) -/
structure FieldInfo where
  Name : String
  ColumnName : String
  Typ : FieldType
  Constraints : Nat
  Ref : String
  RefColumn : String
  IsPK : Bool
  GoType : String
deriving DecidableEq, Repr, Inhabited

/-- `SliceFieldInfo` — a slice-of-struct field recorded for relation resolution. -/
structure SliceFieldInfo where
  Name : String
  ElemType : String
deriving DecidableEq, Repr, Inhabited

/-- `RelationInfo` — a one-to-many relation loader descriptor. -/
structure RelationInfo where
  ChildStruct : String
  FKField : String
  FKColumn : String
  LoaderName : String
  FKFieldType : String
deriving DecidableEq, Repr, Inhabited

/-- `StructInfo` — the parsed metadata of one struct declaration. -/
structure StructInfo where
  Name : String
  TableName : String
  PackageName : String
  Fields : List FieldInfo
  TableNameDeclared : Bool
  SourceFile : String
  SliceFields : List SliceFieldInfo
  Relations : List RelationInfo
deriving DecidableEq, Repr, Inhabited

/-- `Ormc` — the generator handler.  The log sink is modelled by returning
emitted messages explicitly and `rootDir` by passing the walked entries, so
the only remaining state is the external `fmt.IDorPrimaryKey` naming
heuristic, carried abstractly (it lives in the `tinywasm/fmt` dependency,
outside this repository). -/
structure Ormc where
  idOrPrimaryKey : String → String → Bool × Bool

/-! ## Go AST model (the fragment `ormc.go` inspects) -/

/-- Field/receiver type expressions distinguished by the parser:
identifiers, package-selector expressions (`pkg.Sel` with identifier base),
array/slice types, pointer types, and everything else. -/
inductive GoType where
  | ident (name : String)
  | selector (pkg : String) (sel : String)
  | array (elt : GoType)
  | star (elt : GoType)
  | other
deriving DecidableEq, Repr, Inhabited

/-- Expressions distinguished by `detectTableName`: basic literals vs rest. -/
inductive GoExpr where
  | basicLit (value : String)
  | other
deriving DecidableEq, Repr, Inhabited

/-- Statements distinguished by `detectTableName`: return statements vs rest. -/
inductive GoStmt where
  | ret (results : List GoExpr)
  | other
deriving DecidableEq, Repr, Inhabited

/-- One struct field as it appears in the AST: declared names (empty for an
anonymous/embedded field; Go's parser groups `A, B int` under one entry and
`ParseStruct` reads only `Names[0]`), the type expression, and the optional
raw tag literal (back-quotes included, as in `go/ast`). -/
structure ASTField where
  names : List String
  typ : GoType
  tag : Option String
deriving DecidableEq, Repr, Inhabited

/-- One `TypeSpec`: a name plus, when the underlying type is a struct type,
its field list. -/
structure TypeSpec where
  name : String
  struct? : Option (List ASTField)
deriving DecidableEq, Repr, Inhabited

/-- Top-level declarations distinguished by the tool: method/function
declarations (receiver, name, body) and `type` declaration groups. -/
inductive GoDecl where
  | funcDecl (recv : Option GoType) (name : String) (body : Option (List GoStmt))
  | typeDecl (specs : List TypeSpec)
deriving DecidableEq, Repr, Inhabited

/-- A parsed Go source file: package name and declarations. -/
structure GoFile where
  packageName : String
  decls : List GoDecl
deriving DecidableEq, Repr, Inhabited

/-! ## `detectTableName` -/

/-- Receiver-name extraction in `detectTableName`: an identifier or a
star-expression over an identifier yields that identifier, all other
receiver forms yield `""`. -/
def recvIdentName : GoType → String
  | .ident n => n
  | .star (.ident n) => n
  | _ => ""

/-- The single-return-of-a-basic-literal body shape `detectTableName`
accepts: `Body != nil`, exactly one statement, a return with exactly one
result that is a basic literal. -/
def bodyLiteral : Option (List GoStmt) → Option String
  | some [GoStmt.ret [GoExpr.basicLit v]] => some v
  | _ => none

/-- `detectTableName` — scans the declarations for
`func (X) TableName() string` (value- or pointer-receiver) on `structName`
and returns the quoted literal return value, or `""` if none matches. -/
def detectTableName (decls : List GoDecl) (structName : String) : String :=
  match decls with
  | [] => ""
  | GoDecl.funcDecl recv name body :: rest =>
    match recv with
    | none => detectTableName rest structName
    | some rt =>
      if name = "TableName" ∧ recvIdentName rt = structName then
        match bodyLiteral body with
        | some v => dropSuf (dropPre v "\"") "\""
        | none => detectTableName rest structName
      else detectTableName rest structName
  | GoDecl.typeDecl _ :: rest => detectTableName rest structName

/-! ## Locating the target struct (`ast.Inspect` over `TypeSpec`s) -/

/-- First `TypeSpec` in the group whose name matches and whose type is a
struct type (a same-named non-struct spec is passed over, as `ast.Inspect`
keeps descending in that case). -/
def findStructInSpecs : List TypeSpec → String → Option (List ASTField)
  | [], _ => none
  | ts :: rest, n =>
    if ts.name = n then
      match ts.struct? with
      | some fs => some fs
      | none => findStructInSpecs rest n
    else findStructInSpecs rest n

/-- First matching struct `TypeSpec` across all declarations. -/
def findStructDef : List GoDecl → String → Option (List ASTField)
  | [], _ => none
  | GoDecl.typeDecl specs :: rest, n =>
    match findStructInSpecs specs n with
    | some fs => some fs
    | none => findStructDef rest n
  | GoDecl.funcDecl _ _ _ :: rest, n => findStructDef rest n

/-! ## Per-field parsing (`ParseStruct` field loop) -/

/-- Tag extraction: strip back-quotes, split on spaces, take the first part
with prefix `db:"`, strip `db:"` and the closing quote; `""` when absent. -/
def extractDbTag (tag : Option String) : String :=
  match tag with
  | none => ""
  | some t =>
    let tagVal := dropSuf (dropPre t "`") "`"
    let parts := splitChar ' ' tagVal
    match parts.find? (fun p => hasPre p "db:\"") with
    | some p => dropSuf (dropPre p "db:\"") "\""
    | none => ""

/-- Slice-of-identifier detection (`[]T` with `T ≠ byte` is diverted to
`SliceFields`); returns the element-type name when it applies. -/
def isSliceElem : GoType → Option String
  | .array (.ident elt) => if elt = "byte" then none else some elt
  | _ => none

/-- The `typeStr` computed from the field's type expression: identifiers,
`pkg.Sel` selectors with identifier base, and the `[]byte` special case;
everything else stays `""`. -/
def typeStrOf : GoType → String
  | .ident n => n
  | .selector pkg sel => pkg ++ "." ++ sel
  | .array (.ident elt) => if elt = "byte" then "[]byte" else ""
  | _ => ""

/-- The `switch typeStr` storage-type mapping; `none` for unsupported types. -/
def mapFieldType? (typeStr : String) : Option FieldType :=
  if typeStr = "string" then some .TypeText
  else if typeStr = "int" ∨ typeStr = "int32" ∨ typeStr = "int64"
      ∨ typeStr = "uint" ∨ typeStr = "uint32" ∨ typeStr = "uint64" then some .TypeInt64
  else if typeStr = "float32" ∨ typeStr = "float64" then some .TypeFloat64
  else if typeStr = "bool" then some .TypeBool
  else if typeStr = "[]byte" then some .TypeBlob
  else none

/-- The warning logged for a `time.Time` field. -/
def timeWarning (structName fieldName : String) : String :=
  "Warning: time.Time not allowed for field " ++ structName ++ "." ++ fieldName
    ++ "; use int64+tinywasm/time. Skipping."

/-- The warning logged for an unsupported field type. -/
def unsupportedWarning (typeStr structName fieldName : String) : String :=
  "Warning: unsupported type " ++ typeStr ++ " for field " ++ structName ++ "."
    ++ fieldName ++ "; skipping. Add db:\"-\" to suppress."

/-- The fatal message for an auto-increment token on a text-typed field. -/
def autoincErr : String := "autoincrement not allowed on TypeText"

/-- The mutable locals of the tag-token loop: `constraints`, `fieldIsPK`,
the outer `pkFound`, `ref` and `refCol`. -/
structure TagState where
  constraints : Nat
  fieldIsPK : Bool
  pkFound : Bool
  ref : String
  refCol : String
deriving DecidableEq, Repr

/-- One iteration of the `switch` over a comma-separated tag token. -/
def applyTagToken (fieldType : FieldType) (st : TagState) (p : String) : Except String TagState :=
  if p = "pk" then
    if st.fieldIsPK then .ok st
    else .ok { st with constraints := st.constraints ||| ConstraintPK,
                       fieldIsPK := true, pkFound := true }
  else if p = "unique" then
    .ok { st with constraints := st.constraints ||| ConstraintUnique }
  else if p = "not_null" then
    .ok { st with constraints := st.constraints ||| ConstraintNotNull }
  else if p = "autoincrement" then
    if fieldType = .TypeText then .error autoincErr
    else .ok { st with constraints := st.constraints ||| ConstraintAutoIncrement }
  else if hasPre p "ref=" then
    let refVal := dropPre p "ref="
    let refParts := splitChar ':' refVal
    if refParts.length > 1 then
      .ok { st with ref := refParts.headD "", refCol := refParts.getD 1 "" }
    else
      .ok { st with ref := refParts.headD "" }
  else .ok st

/-- The state threaded through the field loop: the struct info accumulated so
far and the declaration-level `pkFound` flag. -/
abbrev ParseState := StructInfo × Bool

/-- One iteration of the `ParseStruct` field loop.  Returns the next state
together with the messages logged during this iteration, or the fatal error.
A fatal iteration logs nothing (the only fatal path emits no message first). -/
def processField (o : Ormc) (structName tableName : String) (st : ParseState)
    (field : ASTField) : Except String (ParseState × List String) :=
  match field.names with
  | [] => .ok (st, [])
  | fieldName :: _ =>
    if isExported fieldName = false then .ok (st, [])
    else
      let dbTag := extractDbTag field.tag
      if dbTag = "-" then .ok (st, [])
      else
        match isSliceElem field.typ with
        | some elt =>
          .ok (({ st.1 with SliceFields := st.1.SliceFields ++ [⟨fieldName, elt⟩] }, st.2), [])
        | none =>
          let typeStr := typeStrOf field.typ
          if typeStr = "time.Time" then
            .ok (st, [timeWarning structName fieldName])
          else
            match mapFieldType? typeStr with
            | none => .ok (st, [unsupportedWarning typeStr structName fieldName])
            | some fieldType =>
              let colName := snakeLow fieldName
              let idpk := o.idOrPrimaryKey tableName fieldName
              let fieldIsPK0 : Bool := (idpk.1 || idpk.2) && !st.2
              let constraints0 : Nat :=
                if fieldIsPK0 then ConstraintNone ||| ConstraintPK else ConstraintNone
              let st0 : TagState :=
                ⟨constraints0, fieldIsPK0, st.2 || fieldIsPK0, "", ""⟩
              match (if dbTag = "" then Except.ok st0
                     else (splitChar ',' dbTag).foldlM (applyTagToken fieldType) st0) with
              | .error e => .error e
              | .ok tagSt =>
                let fi : FieldInfo :=
                  { Name := fieldName, ColumnName := colName, Typ := fieldType,
                    Constraints := tagSt.constraints, Ref := tagSt.ref,
                    RefColumn := tagSt.refCol, IsPK := tagSt.fieldIsPK, GoType := typeStr }
                .ok (({ st.1 with Fields := st.1.Fields ++ [fi] }, tagSt.pkFound), [])

/-- The whole field loop: a left-to-right fold that stops at the first fatal
error and concatenates the logged messages (messages logged before a later
fatal iteration are still reported, mirroring the side-effecting log sink). -/
def parseFields (o : Ormc) (structName tableName : String) (st : ParseState) :
    List ASTField → Except String ParseState × List String
  | [] => (.ok st, [])
  | f :: fs =>
    match processField o structName tableName st f with
    | .error e => (.error e, [])
    | .ok (st1, logs1) =>
      match parseFields o structName tableName st1 fs with
      | (res, logs2) => (res, logs1 ++ logs2)

/-- The table name `ParseStruct` settles on: the hand-authored method's
literal if detected, the lower-snake-case plural of the type name otherwise. -/
def resolvedTableName (file : GoFile) (structName : String) : String :=
  let t := detectTableName file.decls structName
  if t ≠ "" then t else snakeLow (structName ++ "s")

/-- The `StructInfo` as initialized before the field loop. -/
def initInfo (file : GoFile) (structName : String) : StructInfo :=
  { Name := structName,
    TableName := resolvedTableName file structName,
    PackageName := file.packageName,
    Fields := [],
    TableNameDeclared := detectTableName file.decls structName ≠ "",
    SourceFile := "",
    SliceFields := [],
    Relations := [] }

/-- `ParseStruct` — parses one struct from a (already syntactically parsed)
file and returns its metadata together with the logged warnings. -/
def ParseStruct (o : Ormc) (structName : String) (file : GoFile) :
    Except String StructInfo × List String :=
  if structName = "" then (.error "Please provide a struct name", [])
  else
    match findStructDef file.decls structName with
    | none => (.error "Struct not found in file", [])
    | some fields =>
      match parseFields o structName (resolvedTableName file structName)
          (initInfo file structName, false) fields with
      | (.error e, logs) => (.error e, logs)
      | (.ok st, logs) => (.ok st.1, logs)

/-! ## Code emitter (`GenerateForFile`) -/

/-- The `switch f.Type` rendering (default `orm.TypeText`). -/
def fieldTypeStr : FieldType → String
  | .TypeInt64 => "orm.TypeInt64"
  | .TypeFloat64 => "orm.TypeFloat64"
  | .TypeBool => "orm.TypeBool"
  | .TypeBlob => "orm.TypeBlob"
  | .TypeText => "orm.TypeText"

/-- The constraint-name list built for one field (append order as in the
source: PK, Unique, NotNull, AutoIncrement; `orm.ConstraintNone` alone when
the mask is empty). -/
def constraintStrs (c : Nat) : List String :=
  if c = ConstraintNone then ["orm.ConstraintNone"]
  else
    (if c &&& ConstraintPK ≠ 0 then ["orm.ConstraintPK"] else [])
    ++ (if c &&& ConstraintUnique ≠ 0 then ["orm.ConstraintUnique"] else [])
    ++ (if c &&& ConstraintNotNull ≠ 0 then ["orm.ConstraintNotNull"] else [])
    ++ (if c &&& ConstraintAutoIncrement ≠ 0 then ["orm.ConstraintAutoIncrement"] else [])

/-- One element line of the `Schema()` array. -/
def schemaLine (f : FieldInfo) : String :=
  "\t\t\x7bName: \"" ++ f.ColumnName ++ "\", Type: " ++ fieldTypeStr f.Typ
    ++ ", Constraints: " ++ joinSep " | " (constraintStrs f.Constraints)
    ++ (if f.Ref ≠ "" then ", Ref: \"" ++ f.Ref ++ "\"" else "")
    ++ (if f.RefColumn ≠ "" then ", RefColumn: \"" ++ f.RefColumn ++ "\"" else "")
    ++ "\x7d,\n"

/-- One element line of the `Values()` array. -/
def valuesLine (f : FieldInfo) : String :=
  "\t\tm." ++ f.Name ++ ",\n"

/-- One element line of the `Pointers()` array. -/
def pointersLine (f : FieldInfo) : String :=
  "\t\t&m." ++ f.Name ++ ",\n"

/-- The element lines of the `Schema()` array, one per mapped field in
stored order (the emitter's `for _, f := range info.Fields` loop). -/
def schemaEntries (info : StructInfo) : List String :=
  info.Fields.map schemaLine

/-- The element lines of the `Values()` array, one per mapped field. -/
def valuesEntries (info : StructInfo) : List String :=
  info.Fields.map valuesLine

/-- The element lines of the `Pointers()` array, one per mapped field. -/
def pointersEntries (info : StructInfo) : List String :=
  info.Fields.map pointersLine

/-- The `TableName()` accessor: emitted only when the identity name was not
author-declared. -/
def tableNameBlock (info : StructInfo) : String :=
  if info.TableNameDeclared then ""
  else
    "func (m *" ++ info.Name ++ ") TableName() string \x7b\n\treturn \""
      ++ info.TableName ++ "\"\n\x7d\n\n"

/-- The `Schema()` method block. -/
def schemaBlock (info : StructInfo) : String :=
  "func (m *" ++ info.Name ++ ") Schema() []orm.Field \x7b\n\treturn []orm.Field\x7b\n"
    ++ String.join (schemaEntries info) ++ "\t\x7d\n\x7d\n\n"

/-- The `Values()` method block. -/
def valuesBlock (info : StructInfo) : String :=
  "func (m *" ++ info.Name ++ ") Values() []any \x7b\n\treturn []any\x7b\n"
    ++ String.join (valuesEntries info) ++ "\t\x7d\n\x7d\n\n"

/-- The `Pointers()` method block. -/
def pointersBlock (info : StructInfo) : String :=
  "func (m *" ++ info.Name ++ ") Pointers() []any \x7b\n\treturn []any\x7b\n"
    ++ String.join (pointersEntries info) ++ "\t\x7d\n\x7d\n\n"

/-- The metadata descriptor block (`var XMeta = struct { ... }{ ... }`). -/
def metaBlock (info : StructInfo) : String :=
  "var " ++ info.Name ++ "Meta = struct \x7b\n\tTableName string\n"
    ++ String.join (info.Fields.map (fun f => "\t" ++ f.Name ++ " string\n"))
    ++ "\x7d\x7b\n\tTableName: \"" ++ info.TableName ++ "\",\n"
    ++ String.join (info.Fields.map (fun f => "\t" ++ f.Name ++ ": \"" ++ f.ColumnName ++ "\",\n"))
    ++ "\x7d\n\n"

/-- The typed single-row read helper. -/
def readOneBlock (info : StructInfo) : String :=
  "func ReadOne" ++ info.Name ++ "(qb *orm.QB, model *" ++ info.Name ++ ") (*"
    ++ info.Name ++ ", error) \x7b\n\terr := qb.ReadOne()\n\tif err != nil \x7b\n"
    ++ "\t\treturn nil, err\n\t\x7d\n\treturn model, nil\n\x7d\n\n"

/-- The typed multi-row read helper. -/
def readAllBlock (info : StructInfo) : String :=
  "func ReadAll" ++ info.Name ++ "(qb *orm.QB) ([]*" ++ info.Name
    ++ ", error) \x7b\n\tvar results []*" ++ info.Name ++ "\n\terr := qb.ReadAll(\n"
    ++ "\t\tfunc() orm.Model \x7b return &" ++ info.Name ++ "\x7b\x7d \x7d,\n"
    ++ "\t\tfunc(m orm.Model) \x7b results = append(results, m.(*" ++ info.Name ++ ")) \x7d,\n"
    ++ "\t)\n\treturn results, err\n\x7d\n\n"

/-- One generated relation loader (`ReadAllChildByFK`). -/
def relationBlock (info : StructInfo) (rel : RelationInfo) : String :=
  "// ReadAll" ++ rel.ChildStruct ++ "ByParentID retrieves all " ++ rel.ChildStruct
    ++ " records for a given parent ID.\n// Auto-generated by ormc — relation detected via db:\"ref="
    ++ info.TableName ++ "\".\nfunc ReadAll" ++ rel.ChildStruct ++ "By" ++ rel.FKField
    ++ "(db *orm.DB, parentID " ++ rel.FKFieldType ++ ") ([]*" ++ rel.ChildStruct
    ++ ", error) \x7b\n\treturn ReadAll" ++ rel.ChildStruct ++ "(db.Query(&" ++ rel.ChildStruct
    ++ "\x7b\x7d).Where(" ++ rel.ChildStruct ++ "Meta." ++ rel.FKField
    ++ ").Eq(parentID))\n\x7d\n\n"

/-- Everything emitted for one declaration, in source order. -/
def generateForInfo (info : StructInfo) : String :=
  tableNameBlock info ++ schemaBlock info ++ valuesBlock info ++ pointersBlock info
    ++ metaBlock info ++ readOneBlock info ++ readAllBlock info
    ++ String.join (info.Relations.map (relationBlock info))

/-- The fixed file header plus package and import clauses. -/
def fileHeader (packageName : String) : String :=
  "// Code generated by ormc; DO NOT EDIT.\n"
    ++ "// NOTE: Schema() and Values() must always be in the same field order.\n"
    ++ "// String PK: set via github.com/tinywasm/unixid before calling db.Create().\n"
    ++ "package " ++ packageName ++ "\n\nimport (\n\t\"github.com/tinywasm/orm\"\n)\n\n"

/-- The full byte content of a generated unit (the buffer handed to
`os.WriteFile`); `""` is never written since the caller guards the empty
list. -/
def generateForFileBytes (infos : List StructInfo) : String :=
  match infos with
  | [] => ""
  | i0 :: _ => fileHeader i0.PackageName ++ String.join (infos.map generateForInfo)

/-- The generated unit's name: source name with `.go` replaced by `_orm.go`. -/
def outName (sourceFile : String) : String :=
  dropSuf sourceFile ".go" ++ "_orm.go"

/-- The file-system state a run mutates: path to content. -/
abbrev FileSystem := String → Option String

/-- `os.WriteFile`: full overwrite of one path. -/
def writeFile (fs : FileSystem) (name content : String) : FileSystem :=
  fun n => if n = name then some content else fs n

/-- `GenerateForFile` — writes the generated unit for `infos` into the
file system; a no-op on an empty list. -/
def GenerateForFile (fs : FileSystem) (infos : List StructInfo) (sourceFile : String) :
    FileSystem :=
  match infos with
  | [] => fs
  | _ :: _ => writeFile fs (outName sourceFile) (generateForFileBytes infos)

/-! ## Relation resolver (`ResolveRelations`, `findFKField`) -/

/-- The whole-project declaration table (`map[string]StructInfo`), modelled
as an association list with the map's keys. -/
abbrev AllMap := List (String × StructInfo)

/-- Map lookup: first entry with the given key. -/
def lookupAll (all : AllMap) (name : String) : Option StructInfo :=
  (List.find? (fun p => p.1 == name) all).map (fun p => p.2)

/-- Map update of an existing key (`all[name] = info`). -/
def updateAll (all : AllMap) (name : String) (info : StructInfo) : AllMap :=
  List.map (fun p => if p.1 == name then (p.1, info) else p) all

/-- Insertion sort on strings, modelling `sort.Strings`. -/
def insertString (s : String) : List String → List String
  | [] => [s]
  | t :: ts => if s < t then s :: t :: ts else t :: insertString s ts

/-- Ascending lexicographic sort of the parent names. -/
def sortStrings : List String → List String
  | [] => []
  | s :: ss => insertString s (sortStrings ss)

/-- `findFKField` — the first field of the child whose `Ref` matches the
parent's table, or `none`. -/
def findFKField (child : StructInfo) (parentTable : String) : Option FieldInfo :=
  child.Fields.find? (fun f => f.Ref == parentTable)

/-- The relation descriptor constructed on a match. -/
def mkRelation (childName : String) (fk : FieldInfo) : RelationInfo :=
  { ChildStruct := childName, FKField := fk.Name, FKColumn := fk.ColumnName,
    LoaderName := "ReadAll" ++ childName ++ "By" ++ fk.Name,
    FKFieldType := fk.GoType }

/-- Warning for a collection field whose element type is not a known struct. -/
def unknownStructWarning (parentName sfName elemType : String) : String :=
  "Warning: relation field " ++ parentName ++ "." ++ sfName
    ++ " points to unknown struct " ++ elemType ++ "; skipping"

/-- Warning for a child with no foreign key pointing at the parent table. -/
def noFKWarning (childName parentTable parentName sfName : String) : String :=
  "Warning: no FK found in child " ++ childName ++ " pointing to parent table "
    ++ parentTable ++ " (from " ++ parentName ++ "." ++ sfName
    ++ "); skipping relation loader"

/-- The body of the inner `for _, sliceField := range parentInfo.SliceFields`
loop: threads the map and the warning log. -/
def processSliceField (parentName parentTable : String)
    (acc : AllMap × List String) (sf : SliceFieldInfo) : AllMap × List String :=
  match lookupAll acc.1 sf.ElemType with
  | none => (acc.1, acc.2 ++ [unknownStructWarning parentName sf.Name sf.ElemType])
  | some childInfo =>
    match findFKField childInfo parentTable with
    | none => (acc.1, acc.2 ++ [noFKWarning sf.ElemType parentTable parentName sf.Name])
    | some fk =>
      let childInfo2 :=
        { childInfo with Relations := childInfo.Relations ++ [mkRelation sf.ElemType fk] }
      (updateAll acc.1 sf.ElemType childInfo2, acc.2)

/-- The body of the outer loop over one sorted parent name: the parent's
entry is read once from the current map, then its collection fields are
processed in order. -/
def processParent (acc : AllMap × List String) (parentName : String) :
    AllMap × List String :=
  match lookupAll acc.1 parentName with
  | none => acc
  | some parentInfo =>
    parentInfo.SliceFields.foldl (processSliceField parentName parentInfo.TableName) acc

/-- `ResolveRelations` — scans all parents' collection fields in sorted parent
order and appends relation descriptors to the child entries. -/
def ResolveRelations (all : AllMap) : AllMap × List String :=
  (sortStrings (List.map (fun p => p.1) all)).foldl processParent (all, [])

/-! ## Orchestrator (`collectAllStructs`, `generateAll`, `Run`) -/

/-- One file met by the `filepath.Walk` traversal: full path, the directory
names on the way down, the base file name, and the parse result (`none` for
an unparseable file, which the scan silently skips). -/
structure WalkEntry where
  path : String
  dirs : List String
  base : String
  parsed : Option GoFile
deriving Inhabited

/-- The conventional exclusion directories the walk skips. -/
def excludedDir (d : String) : Bool :=
  d == "vendor" || d == ".git" || d == "testdata"

/-- The scan accumulator: the declaration table, the struct and file
orders, the seen-file set and the log stream. -/
structure CollectState where
  all : AllMap
  structOrder : List String
  fileOrder : List String
  fileSeen : List String
  logs : List String

/-- The names of struct-shaped `TypeSpec`s of a file, in declaration order. -/
def structSpecsOf (file : GoFile) : List String :=
  file.decls.foldl
    (fun acc d =>
      match d with
      | GoDecl.typeDecl specs =>
        acc ++ specs.filterMap (fun ts => if ts.struct?.isSome then some ts.name else none)
      | GoDecl.funcDecl _ _ _ => acc)
    []

/-- Map insert-or-overwrite (`all[info.Name] = info`). -/
def insertAll (all : AllMap) (name : String) (info : StructInfo) : AllMap :=
  if (List.find? (fun p => p.1 == name) all).isSome then updateAll all name info
  else all ++ [(name, info)]

/-- Processing of one struct declaration during the scan: a parse failure is
logged and skipped; a declaration without mappable fields is warned about and
skipped; otherwise it is recorded under its name and orders are maintained. -/
def collectSpec (o : Ormc) (path : String) (file : GoFile) (st : CollectState)
    (name : String) : CollectState :=
  match ParseStruct o name file with
  | (.error e, plogs) =>
    { st with logs := st.logs ++ plogs ++ ["Skipping " ++ name ++ " in " ++ path ++ ": " ++ e] }
  | (.ok info, plogs) =>
    if info.Fields.isEmpty then
      { st with logs := st.logs ++ plogs
          ++ ["Warning: " ++ name ++ " has no mappable fields; skipping"] }
    else
      let info2 := { info with SourceFile := path }
      { all := insertAll st.all info2.Name info2,
        structOrder := st.structOrder ++ [info2.Name],
        fileOrder :=
          if st.fileSeen.contains path then st.fileOrder else st.fileOrder ++ [path],
        fileSeen :=
          if st.fileSeen.contains path then st.fileSeen else st.fileSeen ++ [path],
        logs := st.logs ++ plogs }

/-- Processing of one walked file: excluded directories and non-model file
names are passed over, unparseable files are silently skipped, and every
struct-shaped declaration of a recognized file is fed to `collectSpec`. -/
def collectFile (o : Ormc) (st : CollectState) (entry : WalkEntry) : CollectState :=
  if entry.dirs.any excludedDir then st
  else if entry.base == "model.go" || entry.base == "models.go" then
    match entry.parsed with
    | none => st
    | some file => (structSpecsOf file).foldl (collectSpec o entry.path file) st
  else st

/-- `collectAllStructs` — Pass 1: scan the whole tree. -/
def collectAllStructs (o : Ormc) (entries : List WalkEntry) : CollectState :=
  entries.foldl (collectFile o) ⟨[], [], [], [], []⟩

/-- The per-file grouping of `generateAll`: the infos of `structOrder` whose
recorded source file matches, in `structOrder` order. -/
def groupByFile (all : AllMap) (structOrder : List String) (sourceFile : String) :
    List StructInfo :=
  structOrder.filterMap (fun n =>
    match lookupAll all n with
    | some info => if info.SourceFile == sourceFile then some info else none
    | none => none)

/-- `generateAll` — Pass 3: one `GenerateForFile` call per originating file. -/
def generateAll (all : AllMap) (structOrder fileOrder : List String)
    (fs : FileSystem) : FileSystem :=
  fileOrder.foldl
    (fun fs f =>
      let infos := groupByFile all structOrder f
      if infos.isEmpty then fs else GenerateForFile fs infos f)
    fs

/-- `Run` — the CLI entry point: scan, fail fatally when nothing was found,
otherwise resolve relations and emit, returning success. -/
def Run (o : Ormc) (entries : List WalkEntry) (fs : FileSystem) :
    Except String Unit × FileSystem × List String :=
  let st := collectAllStructs o entries
  if st.all.isEmpty then (.error "no models found", fs, st.logs)
  else
    let rr := ResolveRelations st.all
    (.ok (), generateAll rr.1 st.structOrder st.fileOrder fs, st.logs ++ rr.2)

/-! ## Shared lemmas about the field loop -/

/-- Splitting the field loop at an append: the second half runs from the
state the first half reached, and the logs concatenate. -/
lemma parseFields_append (o : Ormc) (sn tn : String) (l1 l2 : List ASTField) :
    ∀ st : ParseState,
      parseFields o sn tn st (l1 ++ l2) =
        match parseFields o sn tn st l1 with
        | (.error e, logs) => (.error e, logs)
        | (.ok st1, logs1) =>
          ((parseFields o sn tn st1 l2).1, logs1 ++ (parseFields o sn tn st1 l2).2) := by
  induction l1 with
  | nil =>
    intro st
    simp [parseFields]
  | cons f fs ih =>
    intro st
    show parseFields o sn tn st (f :: (fs ++ l2)) = _
    rw [parseFields]
    cases hpf : processField o sn tn st f with
    | error e => rw [parseFields, hpf]
    | ok st1logs =>
      obtain ⟨st1, logs1⟩ := st1logs
      dsimp only
      rw [ih st1, parseFields, hpf]
      dsimp only
      cases hfs : parseFields o sn tn st1 fs with
      | mk res2 logs2 =>
        cases res2 with
        | error e => simp
        | ok st2 => simp

/-! ## C1 — the three accessor arrays are parallel -/

/-- C1: for every Declaration, the three accessor arrays emitted by
`GenerateForFile` (`Schema`, `Values`, `Pointers`) have one entry per mapped
field, in the stored field order, so all three have the length of the mapped
`Fields` list and their `i`-th entries all render the `i`-th mapped field. -/
theorem schema_values_pointers_parallel (info : StructInfo) :
    (schemaEntries info).length = info.Fields.length ∧
    (valuesEntries info).length = info.Fields.length ∧
    (pointersEntries info).length = info.Fields.length ∧
    (∀ i : Nat, (schemaEntries info)[i]? = (info.Fields[i]?).map schemaLine) ∧
    (∀ i : Nat, (valuesEntries info)[i]? = (info.Fields[i]?).map valuesLine) ∧
    (∀ i : Nat, (pointersEntries info)[i]? = (info.Fields[i]?).map pointersLine) := by
  refine ⟨?_, ?_, ?_, ?_, ?_, ?_⟩ <;>
    simp [schemaEntries, valuesEntries, pointersEntries, List.getElem?_map]

/-! ## C5 — emission is a deterministic overwrite -/

/-- C5: the bytes `GenerateForFile` produces depend only on the declarations
and their order: the generated unit's content is `generateForFileBytes infos`
whatever the prior file-system state, two runs from different prior states
agree on the generated unit, and re-running on unchanged input leaves the
file system fixed (byte-identical regeneration). -/
theorem generateForFile_deterministic (fs1 fs2 : FileSystem)
    (infos : List StructInfo) (src : String) (h : infos ≠ []) :
    GenerateForFile fs1 infos src (outName src) = some (generateForFileBytes infos) ∧
    GenerateForFile fs1 infos src (outName src) = GenerateForFile fs2 infos src (outName src) ∧
    GenerateForFile (GenerateForFile fs1 infos src) infos src = GenerateForFile fs1 infos src := by
  match infos, h with
  | i :: is, _ =>
    refine ⟨?_, ?_, ?_⟩
    · simp [GenerateForFile, writeFile]
    · simp [GenerateForFile, writeFile]
    · funext n
      by_cases hn : n = outName src <;> simp [GenerateForFile, writeFile, hn]

/-- Witness for C5 at a concrete input: one default declaration, two distinct
prior file-system states. -/
theorem generateForFile_deterministic_witness :
    GenerateForFile (fun _ => none) [default] "m.go" (outName "m.go")
        = some (generateForFileBytes [default]) ∧
    GenerateForFile (fun _ => none) [default] "m.go" (outName "m.go")
        = GenerateForFile (fun _ => some "stale") [default] "m.go" (outName "m.go") ∧
    GenerateForFile (GenerateForFile (fun _ => none) [default] "m.go") [default] "m.go"
        = GenerateForFile (fun _ => none) [default] "m.go" :=
  generateForFile_deterministic (fun _ => none) (fun _ => some "stale")
    [default] "m.go" (by simp)

/-! ## C10 — anonymous and unexported fields are silently skipped -/

/-- C10: a field with no declared name (anonymous/embedded) or whose first
declared name is not exported is skipped silently: the loop state is
unchanged (so the field lands in neither `Fields` nor `SliceFields`), no
message is logged, and the surrounding field-loop run is exactly the run
without that field. -/
theorem anonymous_unexported_silently_skipped (o : Ormc) (sn tn : String)
    (f : ASTField)
    (h : f.names = [] ∨ ∃ n ns, f.names = n :: ns ∧ isExported n = false) :
    (∀ st : ParseState, processField o sn tn st f = .ok (st, [])) ∧
    (∀ (st : ParseState) (l1 l2 : List ASTField),
      parseFields o sn tn st (l1 ++ f :: l2) = parseFields o sn tn st (l1 ++ l2)) := by
  have hstep : ∀ st : ParseState, processField o sn tn st f = .ok (st, []) := by
    intro st
    rcases h with hnil | ⟨n, ns, hcons, hexp⟩
    · rw [processField, hnil]
    · rw [processField, hcons]
      simp [hexp]
  refine ⟨hstep, ?_⟩
  intro st l1 l2
  rw [parseFields_append o sn tn l1 (f :: l2) st, parseFields_append o sn tn l1 l2 st]
  cases h1 : parseFields o sn tn st l1 with
  | mk res1 logs1 =>
    cases res1 with
    | error e => rfl
    | ok st1 =>
      dsimp only
      rw [parseFields, hstep st1]
      dsimp only
      cases h2 : parseFields o sn tn st1 l2 with
      | mk res2 logs2 => cases res2 <;> simp

/-- Witness for C10: a concrete unexported field leaves a concrete state
untouched. -/
theorem anonymous_unexported_silently_skipped_witness :
    processField ⟨fun _ _ => (false, false)⟩ "T" "ts" (default, false)
        ⟨["age"], GoType.ident "int", none⟩ = .ok ((default, false), []) ∧
    parseFields ⟨fun _ _ => (false, false)⟩ "T" "ts" (default, false)
        ([] ++ ⟨["age"], GoType.ident "int", none⟩ :: [])
      = parseFields ⟨fun _ _ => (false, false)⟩ "T" "ts" (default, false) ([] ++ []) := by
  have h := anonymous_unexported_silently_skipped ⟨fun _ _ => (false, false)⟩ "T" "ts"
    ⟨["age"], GoType.ident "int", none⟩ (Or.inr ⟨"age", [], rfl, by decide⟩)
  exact ⟨h.1 (default, false), h.2 (default, false) [] []⟩

/-! ## Lemmas about the tag-token loop -/

/-- A token other than `pk` never changes `fieldIsPK` or `pkFound`. -/
lemma applyTagToken_no_pk (ft : FieldType) (st : TagState) (t : String)
    (ht : t ≠ "pk") :
    ∀ st', applyTagToken ft st t = .ok st' →
      st'.fieldIsPK = st.fieldIsPK ∧ st'.pkFound = st.pkFound := by
  intro st' h
  rw [applyTagToken, if_neg ht] at h
  split at h
  · cases h; exact ⟨rfl, rfl⟩
  · split at h
    · cases h; exact ⟨rfl, rfl⟩
    · split at h
      · split at h
        · simp at h
        · cases h; exact ⟨rfl, rfl⟩
      · split at h
        · dsimp only at h
          split at h
          · cases h; exact ⟨rfl, rfl⟩
          · cases h; exact ⟨rfl, rfl⟩
        · cases h; exact ⟨rfl, rfl⟩

/-- The only fatal outcome of a tag token is the auto-increment/text message. -/
lemma applyTagToken_error_eq (ft : FieldType) (st : TagState) (t : String)
    (e : String) (h : applyTagToken ft st t = .error e) : e = autoincErr := by
  rw [applyTagToken] at h
  split at h
  · split at h <;> simp at h
  · split at h
    · simp at h
    · split at h
      · simp at h
      · split at h
        · split at h
          · cases h; rfl
          · simp at h
        · split at h
          · dsimp only at h
            split at h <;> simp at h
          · simp at h

/-- The token fold only ever fails with the auto-increment/text message. -/
lemma foldTag_error_eq (ft : FieldType) (tokens : List String) :
    ∀ (st : TagState) (e : String),
      tokens.foldlM (applyTagToken ft) st = .error e → e = autoincErr := by
  induction tokens with
  | nil => intro st e h; simp [List.foldlM, pure, Except.pure] at h
  | cons t ts ih =>
    intro st e h
    rw [List.foldlM_cons] at h
    cases happ : applyTagToken ft st t with
    | error e0 =>
      rw [happ] at h
      simp only [bind, Except.bind] at h
      cases h
      exact applyTagToken_error_eq ft st t _ happ
    | ok s1 =>
      rw [happ] at h
      simp only [bind, Except.bind] at h
      exact ih s1 e h

/-- When no token is the explicit `pk` token, the whole tag fold preserves
`fieldIsPK` and `pkFound`. -/
lemma foldTag_no_pk (ft : FieldType) (tokens : List String) :
    ∀ (st st' : TagState), "pk" ∉ tokens →
      tokens.foldlM (applyTagToken ft) st = .ok st' →
      st'.fieldIsPK = st.fieldIsPK ∧ st'.pkFound = st.pkFound := by
  induction tokens with
  | nil =>
    intro st st' _ h
    simp only [List.foldlM, pure, Except.pure, Except.ok.injEq] at h
    subst h
    exact ⟨rfl, rfl⟩
  | cons t ts ih =>
    intro st st' hmem h
    rw [List.mem_cons] at hmem
    push_neg at hmem
    rw [List.foldlM_cons] at h
    cases happ : applyTagToken ft st t with
    | error e0 => rw [happ] at h; simp [bind, Except.bind] at h
    | ok s1 =>
      rw [happ] at h
      simp only [bind, Except.bind] at h
      have h1 := applyTagToken_no_pk ft st t (Ne.symm hmem.1) s1 happ
      have h2 := ih s1 st' hmem.2 h
      exact ⟨h2.1.trans h1.1, h2.2.trans h1.2⟩

/-- Behavior of one field-loop iteration when the field carries no explicit
`pk` token: either the mapped-field list and the `pkFound` flag are untouched,
or exactly one field is appended whose primary flag came from the naming
heuristic guarded by `pkFound` (so it can only be set when no primary key was
claimed before, and it claims the flag). -/
lemma processField_pk_invariant (o : Ormc) (sn tn : String) (st : ParseState)
    (f : ASTField) (hpk : "pk" ∉ splitChar ',' (extractDbTag f.tag)) :
    ∀ st' logs, processField o sn tn st f = .ok (st', logs) →
      (st'.1.Fields = st.1.Fields ∧ st'.2 = st.2) ∨
      (∃ fi, st'.1.Fields = st.1.Fields ++ [fi] ∧ st'.2 = (st.2 || fi.IsPK) ∧
        (fi.IsPK = true → st.2 = false)) := by
  intro st' logs h
  rw [processField] at h
  split at h
  · cases h; exact Or.inl ⟨rfl, rfl⟩
  · rename_i fieldName restNames hnames
    split at h
    · cases h; exact Or.inl ⟨rfl, rfl⟩
    · dsimp only at h
      split at h
      · cases h; exact Or.inl ⟨rfl, rfl⟩
      · split at h
        · cases h; exact Or.inl ⟨rfl, rfl⟩
        · split at h
          · cases h; exact Or.inl ⟨rfl, rfl⟩
          · split at h
            · cases h; exact Or.inl ⟨rfl, rfl⟩
            · rename_i fieldType hmap
              split at h
              · simp at h
              · rename_i tagSt heq
                cases h
                have hflags :
                    tagSt.fieldIsPK
                        = (((o.idOrPrimaryKey tn fieldName).1
                            || (o.idOrPrimaryKey tn fieldName).2) && !st.2) ∧
                    tagSt.pkFound
                        = (st.2 || (((o.idOrPrimaryKey tn fieldName).1
                            || (o.idOrPrimaryKey tn fieldName).2) && !st.2)) := by
                  split at heq
                  · cases heq; exact ⟨rfl, rfl⟩
                  · have hinv := foldTag_no_pk fieldType _ _ _ hpk heq
                    exact ⟨hinv.1, hinv.2⟩
                refine Or.inr ⟨_, rfl, ?_, ?_⟩
                · dsimp only
                  rw [hflags.2, hflags.1]
                · intro hisPK
                  dsimp only at hisPK
                  rw [hflags.1] at hisPK
                  have hand := (Bool.and_eq_true _ _).mp hisPK
                  simpa using hand.2

/-- The field loop keeps the number of primary-flagged mapped fields at most
one when no field carries the explicit `pk` token, threading the invariant
"`pkFound` is false only while no field is flagged". -/
lemma parseFields_pk_count (o : Ormc) (sn tn : String) (fields : List ASTField)
    (hpk : ∀ f ∈ fields, "pk" ∉ splitChar ',' (extractDbTag f.tag)) :
    ∀ (st st' : ParseState) (logs : List String),
      parseFields o sn tn st fields = (.ok st', logs) →
      (st.1.Fields.filter (fun fi => fi.IsPK)).length ≤ 1 →
      (st.2 = false → (st.1.Fields.filter (fun fi => fi.IsPK)).length = 0) →
      (st'.1.Fields.filter (fun fi => fi.IsPK)).length ≤ 1 ∧
      (st'.2 = false → (st'.1.Fields.filter (fun fi => fi.IsPK)).length = 0) := by
  induction fields with
  | nil =>
    intro st st' logs h h1 h2
    rw [parseFields] at h
    cases h
    exact ⟨h1, h2⟩
  | cons f fs ih =>
    intro st st' logs h h1 h2
    rw [parseFields] at h
    cases hpf : processField o sn tn st f with
    | error e => rw [hpf] at h; simp at h
    | ok st1logs =>
      obtain ⟨st1, logs1⟩ := st1logs
      rw [hpf] at h
      dsimp only at h
      cases hfs : parseFields o sn tn st1 fs with
      | mk res2 logs2 =>
        rw [hfs] at h
        dsimp only at h
        cases h
        rcases processField_pk_invariant o sn tn st f
            (hpk f (List.mem_cons_self f fs)) st1 logs1 hpf with
          hsame | ⟨fi, hF, hpk2, himp⟩
        · refine ih (fun g hg => hpk g (List.mem_cons_of_mem f hg)) st1 st' logs2 ?_ ?_ ?_
          · exact hfs
          · rw [hsame.1]; exact h1
          · rw [hsame.1, hsame.2]; exact h2
        · refine ih (fun g hg => hpk g (List.mem_cons_of_mem f hg)) st1 st' logs2 hfs ?_ ?_
          · rw [hF, List.filter_append, List.length_append]
            cases hfi : fi.IsPK with
            | true =>
              have := h2 (himp hfi)
              simp [hfi, this]
            | false => simpa [hfi] using h1
          · intro hs1
            rw [hpk2] at hs1
            have hor := (Bool.or_eq_false_iff).mp hs1
            rw [hF, List.filter_append, List.length_append, h2 hor.1]
            simp [hor.2]

/-! ## C2 — at most one primary key (corrected) -/

/-- Instantiation of the external `fmt.IDorPrimaryKey` naming heuristic that
flags nothing, used for concrete runs. -/
def heurNone : Ormc := ⟨fun _ _ => (false, false)⟩

/-- Instantiation of the external naming heuristic that flags exactly the
field named `ID`, used for concrete runs. -/
def heurID : Ormc := ⟨fun _ fieldName => (fieldName == "ID", false)⟩

/-- A struct whose two fields both carry the explicit `pk` attribute token. -/
def twoPkFile : GoFile :=
  { packageName := "m",
    decls := [GoDecl.typeDecl [⟨"T", some [
      ⟨["A"], GoType.ident "string", some "`db:\"pk\"`"⟩,
      ⟨["B"], GoType.ident "string", some "`db:\"pk\"`"⟩]⟩]] }

/-- C2 counterexample: the explicit `pk` token only consults the per-field
flag, not the declaration-level `pkFound` flag, so with two `db:"pk"` fields
`ParseStruct` marks BOTH as primary — the claim's "at most one field per
Declaration is marked primary, later qualifying fields are not additionally
marked" fails on this input. -/
theorem two_explicit_pk_tokens_both_marked :
    (ParseStruct heurNone "T" twoPkFile).1.toOption.map
        (fun info => (info.Fields.map (fun fi => fi.IsPK),
                      (info.Fields.filter (fun fi => fi.IsPK)).length))
      = some ([true, true], 2) := by
  decide

/-- C2 amended: when no field of the struct carries the explicit `pk`
attribute token, at most one mapped field is marked primary — the naming
heuristic is guarded by the declaration-level first-wins flag.  (With
explicit `pk` tokens, every tagged field is marked, as the counterexample
shows.) -/
theorem at_most_one_pk_without_explicit_token (o : Ormc) (sn : String)
    (file : GoFile) (fields : List ASTField) (info : StructInfo) (logs : List String)
    (hf : findStructDef file.decls sn = some fields)
    (hpk : ∀ f ∈ fields, "pk" ∉ splitChar ',' (extractDbTag f.tag))
    (hok : ParseStruct o sn file = (.ok info, logs)) :
    (info.Fields.filter (fun fi => fi.IsPK)).length ≤ 1 := by
  rw [ParseStruct] at hok
  split at hok
  · simp at hok
  · rw [hf] at hok
    dsimp only at hok
    cases hpf : parseFields o sn (resolvedTableName file sn) (initInfo file sn, false) fields with
    | mk res logs0 =>
      rw [hpf] at hok
      cases res with
      | error e => simp at hok
      | ok st =>
        dsimp only at hok
        cases hok
        have := parseFields_pk_count o sn (resolvedTableName file sn) fields hpk
          (initInfo file sn, false) st _ hpf (by simp [initInfo]) (by simp [initInfo])
        exact this.1

/-- Witness for the C2 amended theorem: a concrete two-field struct without
explicit `pk` tokens, under the `ID`-naming heuristic. -/
theorem at_most_one_pk_without_explicit_token_witness :
    ((((ParseStruct heurID "W"
        { packageName := "m",
          decls := [GoDecl.typeDecl [⟨"W", some [
            ⟨["ID"], GoType.ident "string", none⟩,
            ⟨["Name"], GoType.ident "string", none⟩]⟩]] }).1.toOption.getD
        default).Fields.filter (fun fi => fi.IsPK)).length) ≤ 1 :=
  at_most_one_pk_without_explicit_token heurID "W"
    { packageName := "m",
      decls := [GoDecl.typeDecl [⟨"W", some [
        ⟨["ID"], GoType.ident "string", none⟩,
        ⟨["Name"], GoType.ident "string", none⟩]⟩]] }
    [⟨["ID"], GoType.ident "string", none⟩, ⟨["Name"], GoType.ident "string", none⟩]
    (((ParseStruct heurID "W"
        { packageName := "m",
          decls := [GoDecl.typeDecl [⟨"W", some [
            ⟨["ID"], GoType.ident "string", none⟩,
            ⟨["Name"], GoType.ident "string", none⟩]⟩]] }).1.toOption.getD default))
    ((ParseStruct heurID "W"
        { packageName := "m",
          decls := [GoDecl.typeDecl [⟨"W", some [
            ⟨["ID"], GoType.ident "string", none⟩,
            ⟨["Name"], GoType.ident "string", none⟩]⟩]] }).2)
    (by decide) (by decide) (by rfl)

/-! ## C3 — slice-field diversion vs the exclude attribute (corrected) -/

/-- A struct whose only field is a slice of a named record type carrying the
exclude attribute. -/
def excludedSliceFile : GoFile :=
  { packageName := "m",
    decls := [GoDecl.typeDecl [⟨"P", some [
      ⟨["Roles"], GoType.array (GoType.ident "Role"), some "`db:\"-\"`"⟩]⟩]] }

/-- C3 counterexample: the `db:"-"` exclusion check runs BEFORE slice
detection, so a slice-of-record field tagged `db:"-"` is skipped entirely —
it is NOT diverted to the Collection-field list, contradicting the claim's
"regardless of exclude attribute". -/
theorem excluded_slice_field_not_diverted :
    (ParseStruct heurNone "P" excludedSliceFile).1.toOption.map
        (fun info => (info.SliceFields, info.Fields))
      = some ([], []) := by
  decide

/-- C3 amended: a field whose type is a slice of a named type other than
`byte` is diverted to the Collection-field list and omitted from the mapped
Fields — unless it carries the exclude attribute `db:"-"`, in which case the
field is skipped before slice detection and appears in neither list. -/
theorem slice_field_diversion_unless_excluded (o : Ormc) (sn tn : String)
    (f : ASTField) (n : String) (ns : List String) (elt : String)
    (h1 : f.names = n :: ns) (h2 : isExported n = true)
    (h3 : f.typ = GoType.array (GoType.ident elt)) (h4 : elt ≠ "byte") :
    (extractDbTag f.tag ≠ "-" →
      ∀ st : ParseState,
        processField o sn tn st f
          = .ok (({ st.1 with SliceFields := st.1.SliceFields ++ [⟨n, elt⟩] }, st.2), [])) ∧
    (extractDbTag f.tag = "-" →
      ∀ st : ParseState, processField o sn tn st f = .ok (st, [])) := by
  constructor
  · intro hex st
    rw [processField, h1]
    simp only [h2, Bool.true_eq_false, if_false, if_neg hex]
    have hslice : isSliceElem f.typ = some elt := by
      rw [h3, isSliceElem, if_neg h4]
    rw [hslice]
  · intro hex st
    rw [processField, h1]
    simp [h2, hex]

/-- Witness for the C3 amended theorem: a concrete `[]Role` field, with and
without the exclude attribute. -/
theorem slice_field_diversion_unless_excluded_witness :
    (processField heurNone "P" "ps" (default, false)
        ⟨["Roles"], GoType.array (GoType.ident "Role"), none⟩
      = .ok ((({ (default : StructInfo) with
            SliceFields := (default : StructInfo).SliceFields ++ [⟨"Roles", "Role"⟩] },
          false)), [])) ∧
    (processField heurNone "P" "ps" (default, false)
        ⟨["Roles"], GoType.array (GoType.ident "Role"), some "`db:\"-\"`"⟩
      = .ok ((default, false), [])) :=
  ⟨(slice_field_diversion_unless_excluded heurNone "P" "ps"
      ⟨["Roles"], GoType.array (GoType.ident "Role"), none⟩ "Roles" [] "Role"
      rfl (by decide) rfl (by decide)).1 (by decide) (default, false),
   (slice_field_diversion_unless_excluded heurNone "P" "ps"
      ⟨["Roles"], GoType.array (GoType.ident "Role"), some "`db:\"-\"`"⟩ "Roles" [] "Role"
      rfl (by decide) rfl (by decide)).2 (by decide) (default, false)⟩

/-! ## Lemmas for the auto-increment/text contradiction -/

lemma testBit3_of_or_eight (a : Nat) : (a ||| ConstraintAutoIncrement).testBit 3 = true := by
  rw [Nat.testBit_or]
  have h8 : Nat.testBit ConstraintAutoIncrement 3 = true := by decide
  simp [h8]

lemma and_eight_of_testBit3 (a : Nat) (h : a.testBit 3 = true) :
    a &&& ConstraintAutoIncrement = ConstraintAutoIncrement := by
  apply Nat.eq_of_testBit_eq
  intro j
  rw [Nat.testBit_and]
  rcases eq_or_ne j 3 with rfl | hj
  · have h8 : Nat.testBit ConstraintAutoIncrement 3 = true := by decide
    simp [h, h8]
  · have h8 : Nat.testBit ConstraintAutoIncrement j = false := by
      show Nat.testBit 8 j = false
      have h2 : (8 : Nat) = 2 ^ 3 := by norm_num
      rw [h2, Nat.testBit_two_pow]
      simp [Ne.symm hj]
    simp [h8]

/-- On a text-typed field, the `autoincrement` token is fatal. -/
lemma applyTagToken_ai_text (st : TagState) :
    applyTagToken .TypeText st "autoincrement" = .error autoincErr := by
  rw [applyTagToken,
    if_neg (by decide : ¬("autoincrement" : String) = "pk"),
    if_neg (by decide : ¬("autoincrement" : String) = "unique"),
    if_neg (by decide : ¬("autoincrement" : String) = "not_null"),
    if_pos rfl, if_pos rfl]

/-- On a text-typed field, a token fold containing `autoincrement` fails with
the auto-increment/text message. -/
lemma foldTag_autoinc_text (tokens : List String)
    (hmem : "autoincrement" ∈ tokens) :
    ∀ st : TagState, tokens.foldlM (applyTagToken .TypeText) st = .error autoincErr := by
  induction tokens with
  | nil => simp at hmem
  | cons t ts ih =>
    intro st
    rw [List.foldlM_cons]
    by_cases ht : t = "autoincrement"
    · subst ht
      rw [applyTagToken_ai_text st]
      simp [bind, Except.bind]
    · cases happ : applyTagToken .TypeText st t with
      | error e =>
        have he := applyTagToken_error_eq _ _ _ _ happ
        subst he
        simp [bind, Except.bind]
      | ok s1 =>
        simp only [bind, Except.bind]
        have hts : "autoincrement" ∈ ts := by
          rcases List.mem_cons.mp hmem with heq | hts
          · exact absurd heq.symm ht
          · exact hts
        exact ih hts s1

/-- On a non-text field, one tag token always succeeds, preserves the
auto-increment bit, and the `autoincrement` token sets it. -/
lemma applyTagToken_ok_ne_text (ft : FieldType) (hft : ft ≠ .TypeText)
    (st : TagState) (t : String) :
    ∃ s1, applyTagToken ft st t = .ok s1 ∧
      (st.constraints.testBit 3 = true → s1.constraints.testBit 3 = true) ∧
      (t = "autoincrement" → s1.constraints.testBit 3 = true) := by
  rw [applyTagToken]
  by_cases h1 : t = "pk"
  · rw [if_pos h1]
    by_cases h2 : st.fieldIsPK
    · rw [if_pos h2]
      refine ⟨st, rfl, fun h => h, fun hai => ?_⟩
      rw [hai] at h1; exact absurd h1.symm (by decide)
    · rw [if_neg h2]
      refine ⟨_, rfl, ?_, fun hai => ?_⟩
      · intro hbit
        simpa [Nat.testBit_or] using Or.inl hbit
      · rw [hai] at h1; exact absurd h1.symm (by decide)
  · rw [if_neg h1]
    by_cases h2 : t = "unique"
    · rw [if_pos h2]
      refine ⟨_, rfl, ?_, fun hai => ?_⟩
      · intro hbit
        simpa [Nat.testBit_or] using Or.inl hbit
      · rw [hai] at h2; exact absurd h2.symm (by decide)
    · rw [if_neg h2]
      by_cases h3 : t = "not_null"
      · rw [if_pos h3]
        refine ⟨_, rfl, ?_, fun hai => ?_⟩
        · intro hbit
          simpa [Nat.testBit_or] using Or.inl hbit
        · rw [hai] at h3; exact absurd h3.symm (by decide)
      · rw [if_neg h3]
        by_cases h4 : t = "autoincrement"
        · rw [if_pos h4, if_neg hft]
          exact ⟨_, rfl, fun _ => testBit3_of_or_eight _, fun _ => testBit3_of_or_eight _⟩
        · rw [if_neg h4]
          by_cases h5 : hasPre t "ref=" = true
          · rw [if_pos h5]
            dsimp only
            split
            · exact ⟨_, rfl, fun h => h, fun hai => absurd hai h4⟩
            · exact ⟨_, rfl, fun h => h, fun hai => absurd hai h4⟩
          · rw [if_neg h5]
            exact ⟨st, rfl, fun h => h, fun hai => absurd hai h4⟩

/-- On a non-text field, the whole token fold succeeds, and if it contains
the `autoincrement` token (or the bit was already set) the result carries the
auto-increment bit. -/
lemma foldTag_ok_ne_text (ft : FieldType) (hft : ft ≠ .TypeText)
    (tokens : List String) :
    ∀ st : TagState, ∃ st', tokens.foldlM (applyTagToken ft) st = .ok st' ∧
      (("autoincrement" ∈ tokens ∨ st.constraints.testBit 3 = true) →
        st'.constraints.testBit 3 = true) := by
  induction tokens with
  | nil =>
    intro st
    refine ⟨st, by simp [List.foldlM, pure, Except.pure], ?_⟩
    rintro (h | h)
    · simp at h
    · exact h
  | cons t ts ih =>
    intro st
    obtain ⟨s1, happ, hkeep, hset⟩ := applyTagToken_ok_ne_text ft hft st t
    obtain ⟨st', hfold, hbit⟩ := ih s1
    refine ⟨st', ?_, ?_⟩
    · rw [List.foldlM_cons, happ]
      simpa [bind, Except.bind] using hfold
    · rintro (hmem | hb)
      · rcases List.mem_cons.mp hmem with heq | hts
        · exact hbit (Or.inr (hset heq.symm))
        · exact hbit (Or.inl hts)
      · exact hbit (Or.inr (hkeep hb))

/-- Any fatal outcome of one field-loop iteration carries the
auto-increment/text message — it is the only fatal path in the parser. -/
lemma processField_error_eq (o : Ormc) (sn tn : String) (st : ParseState)
    (f : ASTField) (e : String) (h : processField o sn tn st f = .error e) :
    e = autoincErr := by
  rw [processField] at h
  split at h
  · simp at h
  · split at h
    · simp at h
    · dsimp only at h
      split at h
      · simp at h
      · split at h
        · simp at h
        · split at h
          · simp at h
          · split at h
            · simp at h
            · split at h
              · rename_i e0 heq
                cases h
                split at heq
                · simp at heq
                · exact foldTag_error_eq _ _ _ _ heq
              · simp at h

/-- A field that fatally fails under every loop state makes the whole field
loop fail, wherever it sits in the list. -/
lemma parseFields_err_of_mem (o : Ormc) (sn tn : String)
    (fields : List ASTField) (f : ASTField) (hf : f ∈ fields)
    (hall : ∀ st : ParseState, processField o sn tn st f = .error autoincErr) :
    ∀ st : ParseState, (parseFields o sn tn st fields).1 = .error autoincErr := by
  induction fields with
  | nil => simp at hf
  | cons g gs ih =>
    intro st
    rw [parseFields]
    cases hg : processField o sn tn st g with
    | error e =>
      dsimp only
      rw [processField_error_eq o sn tn st g e hg]
    | ok pair =>
      obtain ⟨st1, logs1⟩ := pair
      dsimp only
      cases hfs : parseFields o sn tn st1 gs with
      | mk res2 logs2 =>
        dsimp only
        rcases List.mem_cons.mp hf with heq | hgs
        · subst heq
          rw [hall st] at hg
          simp at hg
        · have := ih hgs st1
          rw [hfs] at this
          exact this

/-- A mapped text-typed field whose tag tokens include `autoincrement` makes
the field-loop iteration fatal under every loop state. -/
lemma processField_autoinc_text (o : Ormc) (sn tn : String) (f : ASTField)
    (n : String) (ns : List String)
    (h1 : f.names = n :: ns) (h2 : isExported n = true)
    (h3 : extractDbTag f.tag ≠ "-") (h4 : f.typ = GoType.ident "string")
    (h5 : "autoincrement" ∈ splitChar ',' (extractDbTag f.tag)) :
    ∀ st : ParseState, processField o sn tn st f = .error autoincErr := by
  intro st
  have hne : extractDbTag f.tag ≠ "" := by
    intro he
    rw [he] at h5
    simp [splitChar, splitCharAux] at h5
  rw [processField, h1, h4]
  simp only [h2, Bool.true_eq_false, if_false, if_neg h3]
  simp only [isSliceElem, typeStrOf, mapFieldType?]
  norm_num
  rw [if_neg hne, foldTag_autoinc_text _ h5 _,
    if_neg (by decide : ¬("string" : String) = "time.Time")]

/-- A mapped non-text field whose tag tokens include `autoincrement` is
appended with the auto-increment bit set in its constraint mask. -/
lemma processField_autoinc_nontext (o : Ormc) (sn tn : String) (st : ParseState)
    (f : ASTField) (n : String) (ns : List String) (ft : FieldType)
    (h1 : f.names = n :: ns) (h2 : isExported n = true)
    (h3 : extractDbTag f.tag ≠ "-") (h4 : isSliceElem f.typ = none)
    (h5 : mapFieldType? (typeStrOf f.typ) = some ft) (h6 : ft ≠ .TypeText)
    (h7 : "autoincrement" ∈ splitChar ',' (extractDbTag f.tag)) :
    ∃ fi pk2, processField o sn tn st f
        = .ok (({ st.1 with Fields := st.1.Fields ++ [fi] }, pk2), []) ∧
      fi.Constraints &&& ConstraintAutoIncrement = ConstraintAutoIncrement := by
  have hne : extractDbTag f.tag ≠ "" := by
    intro he
    rw [he] at h7
    simp [splitChar, splitCharAux] at h7
  have htime : typeStrOf f.typ ≠ "time.Time" := by
    intro he
    rw [he] at h5
    have hmap : mapFieldType? "time.Time" = none := by decide
    rw [hmap] at h5
    simp at h5
  rw [processField, h1]
  simp only [h2, Bool.true_eq_false, if_false, if_neg h3]
  rw [h4]
  dsimp only
  rw [if_neg htime, h5]
  dsimp only
  rw [if_neg hne]
  obtain ⟨tagSt, hfold, hbit⟩ :=
    foldTag_ok_ne_text ft h6 (splitChar ',' (extractDbTag f.tag))
      ⟨if (((o.idOrPrimaryKey tn n).1 || (o.idOrPrimaryKey tn n).2) && !st.2) = true then
          ConstraintNone ||| ConstraintPK
        else ConstraintNone,
        ((o.idOrPrimaryKey tn n).1 || (o.idOrPrimaryKey tn n).2) && !st.2,
        st.2 || ((o.idOrPrimaryKey tn n).1 || (o.idOrPrimaryKey tn n).2) && !st.2,
        "", ""⟩
  rw [hfold]
  exact ⟨_, tagSt.pkFound, rfl, and_eight_of_testBit3 _ (hbit (Or.inl h7))⟩

/-! ## C4 — auto-increment on text is fatal, elsewhere it sets the bit -/

/-- C4: a struct containing a mapped text-typed field whose attribute tokens
include `autoincrement` makes `ParseStruct` fail for the whole declaration
with the auto-increment/text error (first conjunct); on a mapped field of any
non-text storage type, the `autoincrement` token merely adds the
auto-increment bit to the appended field's constraint bitmask (second
conjunct). -/
theorem autoincrement_on_text_fatal :
    (∀ (o : Ormc) (sn : String) (file : GoFile) (fields : List ASTField)
        (f : ASTField) (n : String) (ns : List String),
      sn ≠ "" →
      findStructDef file.decls sn = some fields →
      f ∈ fields → f.names = n :: ns → isExported n = true →
      extractDbTag f.tag ≠ "-" → f.typ = GoType.ident "string" →
      "autoincrement" ∈ splitChar ',' (extractDbTag f.tag) →
      (ParseStruct o sn file).1 = .error autoincErr) ∧
    (∀ (o : Ormc) (sn tn : String) (st : ParseState) (f : ASTField)
        (n : String) (ns : List String) (ft : FieldType),
      f.names = n :: ns → isExported n = true →
      extractDbTag f.tag ≠ "-" → isSliceElem f.typ = none →
      mapFieldType? (typeStrOf f.typ) = some ft → ft ≠ .TypeText →
      "autoincrement" ∈ splitChar ',' (extractDbTag f.tag) →
      ∃ fi pk2, processField o sn tn st f
          = .ok (({ st.1 with Fields := st.1.Fields ++ [fi] }, pk2), []) ∧
        fi.Constraints &&& ConstraintAutoIncrement = ConstraintAutoIncrement) := by
  constructor
  · intro o sn file fields f n ns hsn hfind hmem h1 h2 h3 h4 h5
    rw [ParseStruct, if_neg hsn, hfind]
    dsimp only
    have herr := parseFields_err_of_mem o sn (resolvedTableName file sn) fields f hmem
      (processField_autoinc_text o sn (resolvedTableName file sn) f n ns h1 h2 h3 h4 h5)
      (initInfo file sn, false)
    cases hpf : parseFields o sn (resolvedTableName file sn) (initInfo file sn, false) fields with
    | mk res logs0 =>
      rw [hpf] at herr
      dsimp only at herr
      subst herr
      rfl
  · intro o sn tn st f n ns ft h1 h2 h3 h4 h5 h6 h7
    exact processField_autoinc_nontext o sn tn st f n ns ft h1 h2 h3 h4 h5 h6 h7

/-- Witness for C4 at concrete inputs: the repository's own
`BadAutoInc{ID string db:"autoincrement"}` shape for the fatal conjunct, and
an `int`-typed auto-increment field for the bit-setting conjunct. -/
theorem autoincrement_on_text_fatal_witness :
    (ParseStruct heurNone "BadAutoInc"
        { packageName := "tests",
          decls := [GoDecl.typeDecl [⟨"BadAutoInc", some [
            ⟨["ID"], GoType.ident "string", some "`db:\"autoincrement\"`"⟩]⟩]] }).1
      = .error autoincErr ∧
    ∃ fi pk2, processField heurNone "N" "ns" (default, false)
        ⟨["Num"], GoType.ident "int", some "`db:\"autoincrement\"`"⟩
        = .ok ((({ (default : StructInfo) with
              Fields := (default : StructInfo).Fields ++ [fi] }, pk2)), []) ∧
      fi.Constraints &&& ConstraintAutoIncrement = ConstraintAutoIncrement :=
  ⟨autoincrement_on_text_fatal.1 heurNone "BadAutoInc"
      { packageName := "tests",
        decls := [GoDecl.typeDecl [⟨"BadAutoInc", some [
          ⟨["ID"], GoType.ident "string", some "`db:\"autoincrement\"`"⟩]⟩]] }
      [⟨["ID"], GoType.ident "string", some "`db:\"autoincrement\"`"⟩]
      ⟨["ID"], GoType.ident "string", some "`db:\"autoincrement\"`"⟩ "ID" []
      (by decide) (by decide) (by decide) rfl (by decide) (by decide) rfl (by decide),
   autoincrement_on_text_fatal.2 heurNone "N" "ns" (default, false)
      ⟨["Num"], GoType.ident "int", some "`db:\"autoincrement\"`"⟩ "Num" []
      FieldType.TypeInt64 rfl (by decide) (by decide) rfl (by decide) (by decide) (by decide)⟩

/-- A date/time field is a warn-and-skip: the loop state is unchanged and
exactly the `time.Time` warning is logged. -/
lemma processField_time (o : Ormc) (sn tn : String) (f : ASTField)
    (n : String) (ns : List String)
    (h1 : f.names = n :: ns) (h2 : isExported n = true)
    (h3 : extractDbTag f.tag ≠ "-") (h4 : isSliceElem f.typ = none)
    (h5 : typeStrOf f.typ = "time.Time") :
    ∀ st : ParseState, processField o sn tn st f = .ok (st, [timeWarning sn n]) := by
  intro st
  rw [processField, h1]
  simp only [h2, Bool.true_eq_false, if_false, if_neg h3]
  rw [h4]
  dsimp only
  rw [if_pos h5]

/-! ## C7 — `time.Time` fields are warned about and skipped -/

/-- C7: a `time.Time` field is never fatal: the field loop over
`l1 ++ [f] ++ l2` returns exactly the state the loop over `l1 ++ l2`
returns (the field is omitted, all other mappable fields are kept), the
`time.Time` warning is logged in place, and `ParseStruct` on such a struct
returns what it would return for the struct without the field. -/
theorem time_field_warned_and_skipped (o : Ormc) (sn : String)
    (f : ASTField) (n : String) (ns : List String) (l1 l2 : List ASTField)
    (h1 : f.names = n :: ns) (h2 : isExported n = true)
    (h3 : extractDbTag f.tag ≠ "-") (h4 : isSliceElem f.typ = none)
    (h5 : typeStrOf f.typ = "time.Time") :
    (∀ (tn : String) (st : ParseState),
      (parseFields o sn tn st (l1 ++ f :: l2)).1 = (parseFields o sn tn st (l1 ++ l2)).1) ∧
    (∀ (tn : String) (st st1 : ParseState) (logs1 : List String),
      parseFields o sn tn st l1 = (.ok st1, logs1) →
      (parseFields o sn tn st (l1 ++ f :: l2)).2
        = logs1 ++ timeWarning sn n :: (parseFields o sn tn st1 l2).2) ∧
    (∀ file : GoFile, sn ≠ "" →
      findStructDef file.decls sn = some (l1 ++ f :: l2) →
      (ParseStruct o sn file).1
        = Except.map (fun st : ParseState => st.1)
            (parseFields o sn (resolvedTableName file sn)
              (initInfo file sn, false) (l1 ++ l2)).1) := by
  have hstep : ∀ (tn : String) (st : ParseState),
      processField o sn tn st f = .ok (st, [timeWarning sn n]) :=
    fun tn st => processField_time o sn tn f n ns h1 h2 h3 h4 h5 st
  have hmaster : ∀ (tn : String) (st : ParseState),
      parseFields o sn tn st (l1 ++ f :: l2) =
        (match parseFields o sn tn st l1 with
          | (.error e, logs) => (.error e, logs)
          | (.ok st1, logs1) =>
            ((parseFields o sn tn st1 l2).1,
              logs1 ++ timeWarning sn n :: (parseFields o sn tn st1 l2).2)) := by
    intro tn st
    rw [parseFields_append o sn tn l1 (f :: l2) st]
    cases hl1 : parseFields o sn tn st l1 with
    | mk res1 logs1 =>
      cases res1 with
      | error e => rfl
      | ok st1 =>
        dsimp only
        rw [parseFields, hstep tn st1]
        dsimp only
        cases hl2 : parseFields o sn tn st1 l2 with
        | mk res2 logs2 => cases res2 <;> simp
  refine ⟨?_, ?_, ?_⟩
  · intro tn st
    rw [hmaster tn st, parseFields_append o sn tn l1 l2 st]
    cases hl1 : parseFields o sn tn st l1 with
    | mk res1 logs1 =>
      cases res1 with
      | error e => rfl
      | ok st1 => rfl
  · intro tn st st1 logs1 hok
    rw [hmaster tn st, hok]
  · intro file hsn hfind
    rw [ParseStruct, if_neg hsn, hfind]
    dsimp only
    rw [hmaster (resolvedTableName file sn) (initInfo file sn, false),
      parseFields_append o sn (resolvedTableName file sn) l1 l2 (initInfo file sn, false)]
    cases hl1 : parseFields o sn (resolvedTableName file sn) (initInfo file sn, false) l1 with
    | mk res1 logs1 =>
      cases res1 with
      | error e => rfl
      | ok st1 =>
        dsimp only
        cases hl2 : parseFields o sn (resolvedTableName file sn) st1 l2 with
        | mk res2 logs2 => cases res2 <;> simp [Except.map]

/-- Witness for C7 at a concrete input (scenario D from the spec: a
`time.Time` field alongside two valid fields). -/
theorem time_field_warned_and_skipped_witness :
    (ParseStruct heurID "D"
        { packageName := "tests",
          decls := [GoDecl.typeDecl [⟨"D", some [
            ⟨["ID"], GoType.ident "string", none⟩,
            ⟨["CreatedAt"], GoType.selector "time" "Time", none⟩,
            ⟨["Name"], GoType.ident "string", none⟩]⟩]] }).1
      = Except.map (fun st : ParseState => st.1)
          (parseFields heurID "D"
            (resolvedTableName
              { packageName := "tests",
                decls := [GoDecl.typeDecl [⟨"D", some [
                  ⟨["ID"], GoType.ident "string", none⟩,
                  ⟨["CreatedAt"], GoType.selector "time" "Time", none⟩,
                  ⟨["Name"], GoType.ident "string", none⟩]⟩]] } "D")
            (initInfo
              { packageName := "tests",
                decls := [GoDecl.typeDecl [⟨"D", some [
                  ⟨["ID"], GoType.ident "string", none⟩,
                  ⟨["CreatedAt"], GoType.selector "time" "Time", none⟩,
                  ⟨["Name"], GoType.ident "string", none⟩]⟩]] } "D", false)
            ([⟨["ID"], GoType.ident "string", none⟩]
              ++ [⟨["Name"], GoType.ident "string", none⟩])).1 :=
  (time_field_warned_and_skipped heurID "D"
      ⟨["CreatedAt"], GoType.selector "time" "Time", none⟩ "CreatedAt" []
      [⟨["ID"], GoType.ident "string", none⟩]
      [⟨["Name"], GoType.ident "string", none⟩]
      rfl (by decide) (by decide) rfl rfl).2.2
    { packageName := "tests",
      decls := [GoDecl.typeDecl [⟨"D", some [
        ⟨["ID"], GoType.ident "string", none⟩,
        ⟨["CreatedAt"], GoType.selector "time" "Time", none⟩,
        ⟨["Name"], GoType.ident "string", none⟩]⟩]] }
    (by decide) (by decide)

/-- One field-loop iteration never changes the declaration-level metadata
fixed before the loop (name, table name, package, declaredness, source file,
relations). -/
lemma processField_preserves (o : Ormc) (sn tn : String) (st : ParseState)
    (f : ASTField) :
    ∀ st' logs, processField o sn tn st f = .ok (st', logs) →
      st'.1.Name = st.1.Name ∧ st'.1.TableName = st.1.TableName ∧
      st'.1.PackageName = st.1.PackageName ∧
      st'.1.TableNameDeclared = st.1.TableNameDeclared ∧
      st'.1.SourceFile = st.1.SourceFile ∧ st'.1.Relations = st.1.Relations := by
  intro st' logs h
  rw [processField] at h
  split at h
  · cases h; exact ⟨rfl, rfl, rfl, rfl, rfl, rfl⟩
  · split at h
    · cases h; exact ⟨rfl, rfl, rfl, rfl, rfl, rfl⟩
    · dsimp only at h
      split at h
      · cases h; exact ⟨rfl, rfl, rfl, rfl, rfl, rfl⟩
      · split at h
        · cases h; exact ⟨rfl, rfl, rfl, rfl, rfl, rfl⟩
        · split at h
          · cases h; exact ⟨rfl, rfl, rfl, rfl, rfl, rfl⟩
          · split at h
            · cases h; exact ⟨rfl, rfl, rfl, rfl, rfl, rfl⟩
            · split at h
              · simp at h
              · cases h; exact ⟨rfl, rfl, rfl, rfl, rfl, rfl⟩

/-- The whole field loop preserves the declaration-level metadata. -/
lemma parseFields_preserves (o : Ormc) (sn tn : String) (fields : List ASTField) :
    ∀ (st st' : ParseState) (logs : List String),
      parseFields o sn tn st fields = (.ok st', logs) →
      st'.1.Name = st.1.Name ∧ st'.1.TableName = st.1.TableName ∧
      st'.1.PackageName = st.1.PackageName ∧
      st'.1.TableNameDeclared = st.1.TableNameDeclared ∧
      st'.1.SourceFile = st.1.SourceFile ∧ st'.1.Relations = st.1.Relations := by
  induction fields with
  | nil =>
    intro st st' logs h
    rw [parseFields] at h
    cases h
    exact ⟨rfl, rfl, rfl, rfl, rfl, rfl⟩
  | cons f fs ih =>
    intro st st' logs h
    rw [parseFields] at h
    cases hpf : processField o sn tn st f with
    | error e => rw [hpf] at h; simp at h
    | ok pair =>
      obtain ⟨st1, logs1⟩ := pair
      rw [hpf] at h
      dsimp only at h
      cases hfs : parseFields o sn tn st1 fs with
      | mk res2 logs2 =>
        rw [hfs] at h
        dsimp only at h
        cases h
        have h1 := processField_preserves o sn tn st f st1 logs1 hpf
        have h2 := ih st1 st' logs2 hfs
        exact ⟨h2.1.trans h1.1, h2.2.1.trans h1.2.1, h2.2.2.1.trans h1.2.2.1,
          h2.2.2.2.1.trans h1.2.2.2.1, h2.2.2.2.2.1.trans h1.2.2.2.2.1,
          h2.2.2.2.2.2.trans h1.2.2.2.2.2⟩

/-! ## C8 — hand-authored `TableName` detection and identity derivation -/

/-- C8: when `detectTableName` finds a hand-authored identity method, its
literal value becomes the storage identity name, the Declaration is marked
author-declared and the emitter omits the identity accessor; when none is
found, the identity name is the lower-snake-case plural of the type name and
the accessor is emitted.  Detection treats value receivers and pointer
receivers alike. -/
theorem tableName_reuse_and_derivation :
    (∀ (o : Ormc) (sn : String) (file : GoFile) (info : StructInfo) (logs : List String),
      ParseStruct o sn file = (.ok info, logs) →
      detectTableName file.decls sn ≠ "" →
      info.TableName = detectTableName file.decls sn ∧
      info.TableNameDeclared = true ∧
      tableNameBlock info = "") ∧
    (∀ (o : Ormc) (sn : String) (file : GoFile) (info : StructInfo) (logs : List String),
      ParseStruct o sn file = (.ok info, logs) →
      detectTableName file.decls sn = "" →
      info.TableName = snakeLow (sn ++ "s") ∧
      info.TableNameDeclared = false ∧
      tableNameBlock info
        = "func (m *" ++ sn ++ ") TableName() string \x7b\n\treturn \""
            ++ snakeLow (sn ++ "s") ++ "\"\n\x7d\n\n") ∧
    (∀ (rt : GoType) (sn v : String) (body rest : List GoDecl) (bl : List GoStmt),
      (rt = GoType.ident sn ∨ rt = GoType.star (GoType.ident sn)) →
      bl = [GoStmt.ret [GoExpr.basicLit v]] →
      body = [] →
      detectTableName (GoDecl.funcDecl (some rt) "TableName" (some bl) :: rest) sn
        = dropSuf (dropPre v "\"") "\"") := by
  have hcommon : ∀ (o : Ormc) (sn : String) (file : GoFile) (info : StructInfo)
      (logs : List String),
      ParseStruct o sn file = (.ok info, logs) →
      info.Name = sn ∧ info.TableName = resolvedTableName file sn ∧
      info.TableNameDeclared = decide (detectTableName file.decls sn ≠ "") := by
    intro o sn file info logs h
    rw [ParseStruct] at h
    split at h
    · simp at h
    · split at h
      · simp at h
      · rename_i fields hfind
        cases hpf : parseFields o sn (resolvedTableName file sn)
            (initInfo file sn, false) fields with
        | mk res logs0 =>
          rw [hpf] at h
          cases res with
          | error e => simp at h
          | ok st =>
            dsimp only at h
            cases h
            have hpres := parseFields_preserves o sn (resolvedTableName file sn)
              fields (initInfo file sn, false) st _ hpf
            refine ⟨hpres.1, hpres.2.1, ?_⟩
            rw [hpres.2.2.2.1]
            rfl
  refine ⟨?_, ?_, ?_⟩
  · intro o sn file info logs h hdet
    obtain ⟨hname, htn, hdecl⟩ := hcommon o sn file info logs h
    have hd : info.TableNameDeclared = true := by rw [hdecl]; simp [hdet]
    refine ⟨?_, hd, ?_⟩
    · rw [htn, resolvedTableName]
      simp [hdet]
    · rw [tableNameBlock, if_pos hd]
  · intro o sn file info logs h hdet
    obtain ⟨hname, htn, hdecl⟩ := hcommon o sn file info logs h
    have hd : info.TableNameDeclared = false := by rw [hdecl]; simp [hdet]
    have htn2 : info.TableName = snakeLow (sn ++ "s") := by
      rw [htn, resolvedTableName]
      simp [hdet]
    refine ⟨htn2, hd, ?_⟩
    rw [tableNameBlock, if_neg (by simp [hd]), hname, htn2]
  · intro rt sn v body rest bl hrt hbl hbody
    subst hbl
    rcases hrt with hrt | hrt <;>
      · subst hrt
        rw [detectTableName]
        simp [recvIdentName, bodyLiteral]

/-- Witness for C8: a struct with a hand-authored pointer-receiver
`TableName` method (identity reused, accessor omitted) and the receiver-form
clause at a value receiver. -/
theorem tableName_reuse_and_derivation_witness :
    (((ParseStruct heurID "U"
        { packageName := "m",
          decls := [
            GoDecl.funcDecl (some (GoType.star (GoType.ident "U"))) "TableName"
              (some [GoStmt.ret [GoExpr.basicLit "\"people\""]]),
            GoDecl.typeDecl [⟨"U", some [⟨["ID"], GoType.ident "string", none⟩]⟩]] }).1.toOption.getD
        default).TableName
      = detectTableName
          [GoDecl.funcDecl (some (GoType.star (GoType.ident "U"))) "TableName"
              (some [GoStmt.ret [GoExpr.basicLit "\"people\""]]),
            GoDecl.typeDecl [⟨"U", some [⟨["ID"], GoType.ident "string", none⟩]⟩]] "U" ∧
      ((ParseStruct heurID "U"
        { packageName := "m",
          decls := [
            GoDecl.funcDecl (some (GoType.star (GoType.ident "U"))) "TableName"
              (some [GoStmt.ret [GoExpr.basicLit "\"people\""]]),
            GoDecl.typeDecl [⟨"U", some [⟨["ID"], GoType.ident "string", none⟩]⟩]] }).1.toOption.getD
        default).TableNameDeclared = true ∧
      tableNameBlock
        ((ParseStruct heurID "U"
          { packageName := "m",
            decls := [
              GoDecl.funcDecl (some (GoType.star (GoType.ident "U"))) "TableName"
                (some [GoStmt.ret [GoExpr.basicLit "\"people\""]]),
              GoDecl.typeDecl [⟨"U", some [⟨["ID"], GoType.ident "string", none⟩]⟩]] }).1.toOption.getD
          default) = "") ∧
    detectTableName
        (GoDecl.funcDecl (some (GoType.ident "V")) "TableName"
            (some [GoStmt.ret [GoExpr.basicLit "\"folks\""]]) :: []) "V"
      = dropSuf (dropPre "\"folks\"" "\"") "\"" :=
  ⟨tableName_reuse_and_derivation.1 heurID "U"
      { packageName := "m",
        decls := [
          GoDecl.funcDecl (some (GoType.star (GoType.ident "U"))) "TableName"
            (some [GoStmt.ret [GoExpr.basicLit "\"people\""]]),
          GoDecl.typeDecl [⟨"U", some [⟨["ID"], GoType.ident "string", none⟩]⟩]] }
      _ _ (by rfl) (by decide),
    tableName_reuse_and_derivation.2.2 (GoType.ident "V") "V" "\"folks\"" [] []
      [GoStmt.ret [GoExpr.basicLit "\"folks\""]] (Or.inl rfl) rfl rfl⟩

/-! ## Lemmas about the declaration table -/

/-- Updating an existing key makes its lookup return the new value. -/
lemma lookupAll_updateAll_self (all : AllMap) (nm : String) (i : StructInfo) :
    ∀ c, lookupAll all nm = some c → lookupAll (updateAll all nm i) nm = some i := by
  induction all with
  | nil => intro c h; simp [lookupAll] at h
  | cons p ps ih =>
    intro c h
    by_cases hp : (p.1 == nm) = true
    · rw [updateAll, List.map_cons, if_pos hp, lookupAll, List.find?_cons]
      simp [hp]
    · rw [updateAll, List.map_cons, if_neg hp, lookupAll, List.find?_cons]
      rw [lookupAll, List.find?_cons] at h
      rw [Bool.not_eq_true] at hp
      rw [hp] at h ⊢
      exact ih c h

/-- Updating one key leaves every other key's lookup unchanged. -/
lemma lookupAll_updateAll_ne (all : AllMap) (nm : String) (i : StructInfo)
    (m : String) (hm : m ≠ nm) :
    lookupAll (updateAll all nm i) m = lookupAll all m := by
  induction all with
  | nil => rfl
  | cons p ps ih =>
    by_cases hp : (p.1 == nm) = true
    · have hpm : (p.1 == m) = false := by
        have : p.1 = nm := by simpa using hp
        simp [this, Ne.symm hm]
      rw [updateAll, List.map_cons, if_pos hp, lookupAll, List.find?_cons]
      rw [lookupAll, List.find?_cons, hpm]
      simp only [hpm]
      exact ih
    · rw [updateAll, List.map_cons, if_neg hp, lookupAll, List.find?_cons]
      rw [lookupAll, List.find?_cons]
      cases hpm : (p.1 == m) with
      | true => rfl
      | false => exact ih

/-- `List.find?` returns the first satisfying element: the found element
satisfies the predicate, sits at some index, and everything before it
fails the predicate. -/
lemma find?_first_spec {α : Type} (p : α → Bool) :
    ∀ (l : List α) (a : α), l.find? p = some a →
      p a = true ∧ ∃ i, ∃ hi : i < l.length, l.get ⟨i, hi⟩ = a ∧
        ∀ j (hj : j < l.length), j < i → p (l.get ⟨j, hj⟩) = false := by
  intro l
  induction l with
  | nil => intro a h; simp at h
  | cons x xs ih =>
    intro a h
    rw [List.find?_cons] at h
    cases hx : p x with
    | true =>
      rw [hx] at h
      cases h
      refine ⟨hx, 0, by simp, rfl, ?_⟩
      intro j hj hj0
      omega
    | false =>
      rw [hx] at h
      obtain ⟨hp, i, hi, hget, hbefore⟩ := ih a h
      refine ⟨hp, i + 1, by simpa using Nat.succ_lt_succ hi, hget, ?_⟩
      intro j hj hji
      cases j with
      | zero => exact hx
      | succ j' =>
        exact hbefore j' (by omega) (by omega)

/-- Inserting into a list is a permutation of consing. -/
lemma insertString_perm (s : String) :
    ∀ l : List String, List.Perm (insertString s l) (s :: l) := by
  intro l
  induction l with
  | nil => exact List.Perm.refl _
  | cons t ts ih =>
    rw [insertString]
    split
    · exact List.Perm.refl _
    · exact (List.Perm.cons t ih).trans (List.Perm.swap s t ts)

/-- Inserting into a sorted list keeps it sorted. -/
lemma insertString_sorted (s : String) :
    ∀ l : List String, l.Sorted (fun a b => a ≤ b) →
      (insertString s l).Sorted (fun a b => a ≤ b) := by
  intro l
  induction l with
  | nil => intro _; exact List.sorted_singleton s
  | cons t ts ih =>
    intro h
    rw [List.sorted_cons] at h
    rw [insertString]
    split
    · rename_i hlt
      rw [List.sorted_cons]
      refine ⟨?_, List.sorted_cons.mpr h⟩
      intro b hb
      rcases List.mem_cons.mp hb with rfl | hb
      · exact le_of_lt hlt
      · exact (le_of_lt hlt).trans (h.1 b hb)
    · rename_i hnlt
      rw [List.sorted_cons]
      refine ⟨?_, ih h.2⟩
      intro b hb
      have hb2 := (insertString_perm s ts).mem_iff.mp hb
      rcases List.mem_cons.mp hb2 with rfl | hb2
      · exact not_lt.mp hnlt
      · exact h.1 b hb2

/-- `sortStrings` (the model of `sort.Strings`) produces a sorted
permutation of its input. -/
lemma sortStrings_sorted_perm :
    ∀ l : List String, List.Perm (sortStrings l) l ∧
      (sortStrings l).Sorted (fun a b => a ≤ b) := by
  intro l
  induction l with
  | nil => exact ⟨List.Perm.refl _, List.sorted_nil⟩
  | cons s ss ih =>
    rw [sortStrings]
    exact ⟨(insertString_perm s (sortStrings ss)).trans (List.Perm.cons s ih.1),
      insertString_sorted s (sortStrings ss) ih.2⟩

/-! ## C6 — relation resolution -/

/-- C6: `ResolveRelations` iterates the parents in lexicographically sorted
name order (first conjunct, the definitional wiring); for one collection
field, an unknown element type yields a warning and leaves the table
unchanged (second conjunct); a known child without a matching foreign key
yields a warning and leaves the table unchanged (third conjunct); on a match
exactly one Relation descriptor is appended to the child entry, every other
entry — in particular the parent's — is untouched and no warning is emitted
(fourth conjunct); and `findFKField` returns the first field in declaration
order whose `Ref` equals the parent's table name (fifth conjunct); the
parent order really is sorted: `sortStrings` yields a `≤`-sorted permutation
of the table's keys (sixth conjunct). -/
theorem resolveRelations_child_relation_spec :
    (∀ all : AllMap,
      ResolveRelations all
        = (sortStrings (List.map (fun p => p.1) all)).foldl processParent (all, [])) ∧
    (∀ (pn pt : String) (acc : AllMap × List String) (sf : SliceFieldInfo),
      lookupAll acc.1 sf.ElemType = none →
      processSliceField pn pt acc sf
        = (acc.1, acc.2 ++ [unknownStructWarning pn sf.Name sf.ElemType])) ∧
    (∀ (pn pt : String) (acc : AllMap × List String) (sf : SliceFieldInfo)
        (child : StructInfo),
      lookupAll acc.1 sf.ElemType = some child →
      findFKField child pt = none →
      processSliceField pn pt acc sf
        = (acc.1, acc.2 ++ [noFKWarning sf.ElemType pt pn sf.Name])) ∧
    (∀ (pn pt : String) (acc : AllMap × List String) (sf : SliceFieldInfo)
        (child : StructInfo) (fk : FieldInfo),
      lookupAll acc.1 sf.ElemType = some child →
      findFKField child pt = some fk →
      (processSliceField pn pt acc sf).2 = acc.2 ∧
      lookupAll (processSliceField pn pt acc sf).1 sf.ElemType
        = some { child with Relations := child.Relations ++ [mkRelation sf.ElemType fk] } ∧
      (∀ m, m ≠ sf.ElemType →
        lookupAll (processSliceField pn pt acc sf).1 m = lookupAll acc.1 m)) ∧
    (∀ (child : StructInfo) (pt : String) (fk : FieldInfo),
      findFKField child pt = some fk →
      fk.Ref = pt ∧ ∃ i, ∃ hi : i < child.Fields.length,
        child.Fields.get ⟨i, hi⟩ = fk ∧
        ∀ j (hj : j < child.Fields.length), j < i →
          (child.Fields.get ⟨j, hj⟩).Ref ≠ pt) ∧
    (∀ l : List String, List.Perm (sortStrings l) l ∧
      (sortStrings l).Sorted (fun a b => a ≤ b)) := by
  refine ⟨fun _ => rfl, ?_, ?_, ?_, ?_, sortStrings_sorted_perm⟩
  · intro pn pt acc sf hnone
    rw [processSliceField, hnone]
  · intro pn pt acc sf child hsome hnofk
    rw [processSliceField, hsome]
    dsimp only
    rw [hnofk]
  · intro pn pt acc sf child fk hsome hfk
    rw [processSliceField, hsome]
    dsimp only
    rw [hfk]
    refine ⟨rfl, ?_, ?_⟩
    · exact lookupAll_updateAll_self acc.1 sf.ElemType _ child hsome
    · intro m hm
      exact lookupAll_updateAll_ne acc.1 sf.ElemType _ m hm
  · intro child pt fk hfk
    rw [findFKField] at hfk
    obtain ⟨hp, i, hi, hget, hbefore⟩ :=
      find?_first_spec (fun f => f.Ref == pt) child.Fields fk hfk
    refine ⟨by simpa using hp, i, hi, hget, ?_⟩
    intro j hj hji
    have := hbefore j hj hji
    simpa using this

/-- The `Child{ParentID ref=parents}` entry used by the C6 witness. -/
def relChildFK : FieldInfo :=
  { Name := "ParentID", ColumnName := "parent_id", Typ := FieldType.TypeText,
    Constraints := 0, Ref := "parents", RefColumn := "", IsPK := false,
    GoType := "string" }

/-- The child Declaration used by the C6 witness. -/
def relChildInfo : StructInfo :=
  { Name := "Child", TableName := "childs", PackageName := "m",
    Fields := [relChildFK], TableNameDeclared := false, SourceFile := "",
    SliceFields := [], Relations := [] }

/-- The parent Declaration used by the C6 witness (`Parent{Kids []Child}`). -/
def relParentInfo : StructInfo :=
  { Name := "Parent", TableName := "parents", PackageName := "m",
    Fields := [], TableNameDeclared := false, SourceFile := "",
    SliceFields := [⟨"Kids", "Child"⟩], Relations := [] }

/-- The two-entry declaration table used by the C6 witness. -/
def relAllMap : AllMap := [("Parent", relParentInfo), ("Child", relChildInfo)]

/-- Witness for C6 at a concrete two-entry table: the `Parent{Kids []Child}`
/ `Child{ParentID ref=parents}` scenario, exercising the matching branch. -/
theorem resolveRelations_child_relation_spec_witness :
    (processSliceField "Parent" "parents" (relAllMap, []) ⟨"Kids", "Child"⟩).2 = [] ∧
    lookupAll (processSliceField "Parent" "parents" (relAllMap, []) ⟨"Kids", "Child"⟩).1
        "Child"
      = some { relChildInfo with
          Relations := relChildInfo.Relations ++ [mkRelation "Child" relChildFK] } := by
  have h := resolveRelations_child_relation_spec.2.2.2.1 "Parent" "parents"
    (relAllMap, []) ⟨"Kids", "Child"⟩ relChildInfo relChildFK (by decide) (by decide)
  exact ⟨h.1, h.2.1⟩

/-! ## Lemmas about the scan -/

/-- The log-free part of the scan state: everything the later passes read. -/
def scanCore (st : CollectState) :
    AllMap × List String × List String × List String :=
  (st.all, st.structOrder, st.fileOrder, st.fileSeen)

/-- One scanned declaration only reads and writes the log-free state and
appends to the log, so states agreeing on the log-free part keep agreeing. -/
lemma collectSpec_core (o : Ormc) (path : String) (file : GoFile) (nm : String)
    (st st' : CollectState) (h : scanCore st = scanCore st') :
    scanCore (collectSpec o path file st nm)
      = scanCore (collectSpec o path file st' nm) := by
  obtain ⟨h1, h2, h3, h4⟩ : st.all = st'.all ∧ st.structOrder = st'.structOrder ∧
      st.fileOrder = st'.fileOrder ∧ st.fileSeen = st'.fileSeen := by
    rw [scanCore, scanCore, Prod.ext_iff, Prod.ext_iff, Prod.ext_iff] at h
    exact ⟨h.1, h.2.1, h.2.2.1, h.2.2.2⟩
  rw [collectSpec, collectSpec]
  cases hps : ParseStruct o nm file with
  | mk res plogs =>
    cases res with
    | error e => simp [scanCore, h1, h2, h3, h4]
    | ok info =>
      dsimp only
      split
      · simp [scanCore, h1, h2, h3, h4]
      · simp [scanCore, h1, h2, h3, h4]

/-- Folding the scan over a declaration list preserves agreement on the
log-free state. -/
lemma foldSpecs_core (o : Ormc) (path : String) (file : GoFile)
    (names : List String) :
    ∀ st st' : CollectState, scanCore st = scanCore st' →
      scanCore (names.foldl (collectSpec o path file) st)
        = scanCore (names.foldl (collectSpec o path file) st') := by
  induction names with
  | nil => intro st st' h; exact h
  | cons nm rest ih =>
    intro st st' h
    rw [List.foldl_cons, List.foldl_cons]
    exact ih _ _ (collectSpec_core o path file nm st st' h)

/-! ## C9 — fatal "no models found" vs per-declaration skips -/

/-- C9: `Run` returns the fatal "no models found" error exactly when the
whole scan collected nothing, and returns success otherwise, warnings
notwithstanding (first conjunct); a declaration whose parse fails only adds
the parse log and the "Skipping …" message, leaving the collected table and
orders exactly as if the declaration were absent, so neither its file nor
the run is aborted (second conjunct). -/
theorem run_no_models_and_skip_failures :
    (∀ (o : Ormc) (entries : List WalkEntry) (fs : FileSystem),
      ((Run o entries fs).1 = .error "no models found"
        ↔ (collectAllStructs o entries).all = []) ∧
      ((collectAllStructs o entries).all ≠ [] → (Run o entries fs).1 = .ok ())) ∧
    (∀ (o : Ormc) (path : String) (file : GoFile) (st : CollectState)
        (nm e : String) (plogs : List String) (l1 l2 : List String),
      ParseStruct o nm file = (.error e, plogs) →
      collectSpec o path file st nm
          = { st with logs := st.logs ++ plogs
              ++ ["Skipping " ++ nm ++ " in " ++ path ++ ": " ++ e] } ∧
      scanCore ((l1 ++ nm :: l2).foldl (collectSpec o path file) st)
        = scanCore ((l1 ++ l2).foldl (collectSpec o path file) st)) := by
  constructor
  · intro o entries fs
    rw [Run]
    by_cases hemp : (collectAllStructs o entries).all.isEmpty = true
    · have hnil : (collectAllStructs o entries).all = [] := by
        simpa using hemp
      constructor
      · simp [hemp, hnil]
      · intro hne
        exact absurd hnil hne
    · have hnil : ¬(collectAllStructs o entries).all = [] := by
        simpa using hemp
      constructor
      · simp [hemp, hnil]
      · intro _
        simp [hemp]
  · intro o path file st nm e plogs l1 l2 hps
    have hone : ∀ s : CollectState, collectSpec o path file s nm
        = { s with logs := s.logs ++ plogs
            ++ ["Skipping " ++ nm ++ " in " ++ path ++ ": " ++ e] } := by
      intro s
      rw [collectSpec, hps]
    refine ⟨hone st, ?_⟩
    rw [List.foldl_append, List.foldl_append, List.foldl_cons, hone]
    exact foldSpecs_core o path file l2 _ _ (by simp [scanCore])

/-- The concrete `models.go` used by the C9 witness: one resolvable struct
and one whose parse fails on the auto-increment/text contradiction. -/
def skipFile : GoFile :=
  { packageName := "app",
    decls := [GoDecl.typeDecl [
      ⟨"Good", some [⟨["ID"], GoType.ident "string", none⟩]⟩,
      ⟨"BadAutoInc", some [
        ⟨["ID"], GoType.ident "string", some "`db:\"autoincrement\"`"⟩]⟩]] }

/-- The concrete walk entry used by the C9 witness. -/
def skipEntry : WalkEntry := ⟨"a/models.go", ["a"], "models.go", some skipFile⟩

/-- Witness for C9 at a concrete tree: one `models.go` with a resolvable
struct and one whose parse fails on the auto-increment/text contradiction —
the run succeeds and the failing declaration is skipped in place. -/
theorem run_no_models_and_skip_failures_witness :
    (Run heurID [skipEntry] (fun _ => none)).1 = .ok () ∧
    scanCore ((["Good"] ++ "BadAutoInc" :: []).foldl
        (collectSpec heurID "a/models.go" skipFile) ⟨[], [], [], [], []⟩)
      = scanCore ((["Good"] ++ []).foldl
        (collectSpec heurID "a/models.go" skipFile) ⟨[], [], [], [], []⟩) :=
  ⟨(run_no_models_and_skip_failures.1 heurID [skipEntry] (fun _ => none)).2 (by decide),
    (run_no_models_and_skip_failures.2 heurID "a/models.go" skipFile
      ⟨[], [], [], [], []⟩ "BadAutoInc" autoincErr [] ["Good"] [] (by rfl)).2⟩

end Orm
